import Mathlib

set_option maxHeartbeats 1000000
set_option maxRecDepth 4000

/- Verification development for the hipdiff tool.

   Part 1 embeds the HIP archive reader (class Hip: enterBlock/exitBlock and
   the fixed chunk grammar HIPA/PACK/DICT/STRM).  The byte stream is a
   `List Nat` of byte values; the FILE* cursor and the block stack are the
   `HSt` state.  Loops of the C code are written with an explicit fuel
   parameter (every loop iteration consumes at least one byte in the C code,
   so any fuel larger than the stream length is enough); running out of fuel
   yields `none`.  `Option HSt` is `true`/`false` of the C readers combined
   with the mutated object.

   Part 2 embeds the diff engine of main.cpp. -/

/- ----------------------------------------------------------------- -/
/- Part 1: the HIP reader (hip.h / hip.cpp)                          -/
/- ----------------------------------------------------------------- -/

structure PverP where
  subVersion : Nat := 0
  clientVersion : Nat := 0
  compatVersion : Nat := 0
deriving DecidableEq

structure PcntP where
  assetCount : Nat := 0
  layerCount : Nat := 0
  maxAssetSize : Nat := 0
  maxLayerSize : Nat := 0
  maxXformAssetSize : Nat := 0
deriving DecidableEq

structure PcrtP where
  time : Nat := 0
  str : List Nat := []
deriving DecidableEq

structure PlatP where
  ex : Bool := false
  id : Nat := 0
  stringCount : Nat := 0
  strings : List (List Nat) := []
deriving DecidableEq

structure AhdrP where
  id : Nat := 0
  type : Nat := 0
  offset : Nat := 0
  size : Nat := 0
  plus : Nat := 0
  flags : Nat := 0
  dataOff : Int := 0
deriving DecidableEq

structure AdbgP where
  align : Nat := 0
  name : List Nat := []
  filename : List Nat := []
  checksum : Nat := 0
deriving DecidableEq

structure LhdrP where
  type : Nat := 0
  assetCount : Nat := 0
  assetIDs : List Nat := []
deriving DecidableEq

structure Blk where
  bid : Nat
  endpos : Nat
deriving DecidableEq

/- The Hip object.  The constructor memsets the whole object to zero, which
   the field defaults reproduce.  `ahdrParsed`/`lhdrParsed` mirror the local
   counters `i` of readATOC/readLTOC (the values checked by the asserts
   `i == pcnt.assetCount` / `i == pcnt.layerCount`). -/
structure HSt where
  pos : Nat := 0
  stack : List Blk := []
  pver : PverP := {}
  pflg : Nat := 0
  pcnt : PcntP := {}
  pcrt : PcrtP := {}
  pmodTime : Nat := 0
  plat : PlatP := {}
  ainf : Nat := 0
  linf : Nat := 0
  dhdr : Nat := 0
  dpakPad : Nat := 0
  dpakData : List Nat := []
  ahdr : List AhdrP := []
  adbg : List AdbgP := []
  lhdr : List LhdrP := []
  ldbg : List Nat := []
  ahdrParsed : Nat := 0
  lhdrParsed : Nat := 0
deriving DecidableEq

def hip0 : HSt := {}

def blk0 : Blk := ⟨0, 0⟩

def ahdrP0 : AhdrP := {}

def adbgP0 : AdbgP := {}

def lhdrP0 : LhdrP := {}

/- BLKID(a,b,c,d) -/
def blkid (a b c d : Nat) : Nat := ((a * 256 + b) * 256 + c) * 256 + d

def idHIPA : Nat := blkid 72 73 80 65
def idPACK : Nat := blkid 80 65 67 75
def idPVER : Nat := blkid 80 86 69 82
def idPFLG : Nat := blkid 80 70 76 71
def idPCNT : Nat := blkid 80 67 78 84
def idPCRT : Nat := blkid 80 67 82 84
def idPMOD : Nat := blkid 80 77 79 68
def idPLAT : Nat := blkid 80 76 65 84
def idDICT : Nat := blkid 68 73 67 84
def idATOC : Nat := blkid 65 84 79 67
def idAINF : Nat := blkid 65 73 78 70
def idAHDR : Nat := blkid 65 72 68 82
def idADBG : Nat := blkid 65 68 66 71
def idLTOC : Nat := blkid 76 84 79 67
def idLINF : Nat := blkid 76 73 78 70
def idLHDR : Nat := blkid 76 72 68 82
def idLDBG : Nat := blkid 76 68 66 71
def idSTRM : Nat := blkid 83 84 82 77
def idDHDR : Nat := blkid 68 72 68 82
def idDPAK : Nat := blkid 68 80 65 75

def getByte (bytes : List Nat) (i : Nat) : Nat := bytes.getD i 0

/- the 32-bit big-endian value at offset i (readLong reads 4 bytes and
   byte-swaps them to host order) -/
def long32At (bytes : List Nat) (i : Nat) : Nat :=
  ((getByte bytes i * 256 + getByte bytes (i + 1)) * 256 + getByte bytes (i + 2)) * 256
    + getByte bytes (i + 3)

/- static bool readLong(FILE*, uint32_t*).  A short read fails (in C the
   cursor may still advance over the partial bytes; no caller goes on
   reading after a failed readLong, so the exact cursor value after a
   failure is unobservable and we leave it unchanged). -/
def readLong (bytes : List Nat) (st : HSt) : Option (Nat × HSt) :=
  if st.pos + 4 ≤ bytes.length then
    some (long32At bytes st.pos, { st with pos := st.pos + 4 })
  else none

/- static bool readString(FILE*, char*, size_t).  Reads bytes up to and
   including the NUL terminator; the stored buffer keeps at most
   bufsize - 1 characters; if the total number of consumed bytes (including
   the terminator) is odd, one padding byte is skipped with fseek.  The read
   fails iff the stream ends before a terminator is found. -/
def readStringP (bytes : List Nat) (st : HSt) (bufsize : Nat) : Option (List Nat × HSt) :=
  match (bytes.drop st.pos).findIdx? (fun b => b == 0) with
  | none => none
  | some k =>
    some ((bytes.drop st.pos).take (min k (bufsize - 1)),
          { st with pos := st.pos + (k + 1) + ((k + 1) % 2) })

/- uint32_t Hip::enterBlock().  Returns 0 both when the stack is at the
   HIP_MAX_STACK_DEPTH (8) cap (after an assert and a warning) and when the
   cursor reached the end of the active block, and when the tag/length read
   fails; otherwise pushes the block and returns its tag. -/
def enterBlock (bytes : List Nat) (st : HSt) : Nat × HSt :=
  if 8 ≤ st.stack.length then (0, st)
  else if 0 < st.stack.length ∧ (st.stack.headD blk0).endpos ≤ st.pos then (0, st)
  else
    match readLong bytes st with
    | none => (0, st)
    | some (bid, st1) =>
      match readLong bytes st1 with
      | none => (0, st1)
      | some (len, st2) =>
        (bid, { st2 with stack := ⟨bid, st2.pos + len⟩ :: st2.stack })

/- void Hip::exitBlock(): pop and seek to the popped block's end. -/
def exitBlock (st : HSt) : HSt :=
  match st.stack with
  | [] => st
  | b :: rest => { st with pos := b.endpos, stack := rest }

def readPVER (bytes : List Nat) (st : HSt) : Option HSt :=
  match readLong bytes st with
  | none => none
  | some (a, st) =>
  match readLong bytes st with
  | none => none
  | some (b, st) =>
  match readLong bytes st with
  | none => none
  | some (c, st) => some { st with pver := ⟨a, b, c⟩ }

def readPFLG (bytes : List Nat) (st : HSt) : Option HSt :=
  match readLong bytes st with
  | none => none
  | some (a, st) => some { st with pflg := a }

def readPCNT (bytes : List Nat) (st : HSt) : Option HSt :=
  match readLong bytes st with
  | none => none
  | some (a, st) =>
  match readLong bytes st with
  | none => none
  | some (b, st) =>
  match readLong bytes st with
  | none => none
  | some (c, st) =>
  match readLong bytes st with
  | none => none
  | some (d, st) =>
  match readLong bytes st with
  | none => none
  | some (e, st) => some { st with pcnt := ⟨a, b, c, d, e⟩ }

def readPCRT (bytes : List Nat) (st : HSt) : Option HSt :=
  match readLong bytes st with
  | none => none
  | some (t, st) =>
  match readStringP bytes st 32 with
  | none => none
  | some (s, st) => some { st with pcrt := ⟨t, s⟩ }

def readPMOD (bytes : List Nat) (st : HSt) : Option HSt :=
  match readLong bytes st with
  | none => none
  | some (t, st) => some { st with pmodTime := t }

/- the string loop of readPLAT: while the cursor is inside the PLAT block,
   read strings, capped at HIP_MAX_PLATFORM_STRINGS (4) with a warning -/
def platLoop (bytes : List Nat) : Nat → HSt → Option HSt
  | 0, _ => none
  | fuel + 1, st =>
    if st.pos < (st.stack.headD blk0).endpos then
      if 4 ≤ st.plat.stringCount then some st
      else
        match readStringP bytes st 32 with
        | none => none
        | some (s, st1) =>
          platLoop bytes fuel
            { st1 with plat := { st1.plat with
                stringCount := st1.plat.stringCount + 1,
                strings := st1.plat.strings ++ [s] } }
    else some st

def readPLAT (bytes : List Nat) (fuel : Nat) (st : HSt) : Option HSt :=
  let st := { st with plat := { st.plat with ex := true } }
  match readLong bytes st with
  | none => none
  | some (pid, st) =>
    platLoop bytes fuel { st with plat := { st.plat with id := pid } }

def packHandler (bytes : List Nat) (fuel : Nat) (cid : Nat) (st : HSt) : Option HSt :=
  if cid == idPVER then readPVER bytes st
  else if cid == idPFLG then readPFLG bytes st
  else if cid == idPCNT then readPCNT bytes st
  else if cid == idPCRT then readPCRT bytes st
  else if cid == idPMOD then readPMOD bytes st
  else if cid == idPLAT then readPLAT bytes fuel st
  else some st

def packLoop (bytes : List Nat) : Nat → HSt → Option HSt
  | 0, _ => none
  | fuel + 1, st =>
    let p := enterBlock bytes st
    if p.1 == 0 then some p.2
    else
      match packHandler bytes fuel p.1 p.2 with
      | none => none
      | some st2 => packLoop bytes fuel (exitBlock st2)

def readPACK (bytes : List Nat) (fuel : Nat) (st : HSt) : Option HSt :=
  packLoop bytes fuel st

def readAINF (bytes : List Nat) (st : HSt) : Option HSt :=
  match readLong bytes st with
  | none => none
  | some (a, st) => some { st with ainf := a }

def readADBG (bytes : List Nat) (st : HSt) (i : Nat) : Option HSt :=
  match readLong bytes st with
  | none => none
  | some (al, st) =>
  match readStringP bytes st 32 with
  | none => none
  | some (nm, st) =>
  match readStringP bytes st 32 with
  | none => none
  | some (fn, st) =>
  match readLong bytes st with
  | none => none
  | some (ck, st) => some { st with adbg := st.adbg.set i ⟨al, nm, fn, ck⟩ }

def ahdrSubLoop (bytes : List Nat) : Nat → HSt → Nat → Option HSt
  | 0, _, _ => none
  | fuel + 1, st, i =>
    let p := enterBlock bytes st
    if p.1 == 0 then some p.2
    else
      match (if p.1 == idADBG then readADBG bytes p.2 i else some p.2) with
      | none => none
      | some st2 => ahdrSubLoop bytes fuel (exitBlock st2) i

def readAHDR (bytes : List Nat) (fuel : Nat) (st : HSt) (i : Nat) : Option HSt :=
  match readLong bytes st with
  | none => none
  | some (aid, st) =>
  match readLong bytes st with
  | none => none
  | some (ty, st) =>
  match readLong bytes st with
  | none => none
  | some (off, st) =>
  match readLong bytes st with
  | none => none
  | some (sz, st) =>
  match readLong bytes st with
  | none => none
  | some (pl, st) =>
  match readLong bytes st with
  | none => none
  | some (fl, st) =>
    ahdrSubLoop bytes fuel { st with ahdr := st.ahdr.set i ⟨aid, ty, off, sz, pl, fl, 0⟩ } i

def atocLoop (bytes : List Nat) : Nat → HSt → Option HSt
  | 0, _ => none
  | fuel + 1, st =>
    let p := enterBlock bytes st
    if p.1 == 0 then some p.2
    else
      let r : Option HSt :=
        if p.1 == idAINF then readAINF bytes p.2
        else if p.1 == idAHDR then
          match readAHDR bytes fuel p.2 p.2.ahdrParsed with
          | none => none
          | some st2 => some { st2 with ahdrParsed := st2.ahdrParsed + 1 }
        else some p.2
      match r with
      | none => none
      | some st2 => atocLoop bytes fuel (exitBlock st2)

/- bool Hip::readATOC(): the local counter i is reset to 0 here; on exit the
   C code runs assert(i == pcnt.assetCount) and then returns true whether or
   not the assertion held (asserts vanish in release builds). -/
def readATOC (bytes : List Nat) (fuel : Nat) (st : HSt) : Option HSt :=
  atocLoop bytes fuel { st with ahdrParsed := 0 }

def readLINF (bytes : List Nat) (st : HSt) : Option HSt :=
  match readLong bytes st with
  | none => none
  | some (a, st) => some { st with linf := a }

def readLDBG (bytes : List Nat) (st : HSt) (i : Nat) : Option HSt :=
  match readLong bytes st with
  | none => none
  | some (a, st) => some { st with ldbg := st.ldbg.set i a }

def lhdrSubLoop (bytes : List Nat) : Nat → HSt → Nat → Option HSt
  | 0, _, _ => none
  | fuel + 1, st, i =>
    let p := enterBlock bytes st
    if p.1 == 0 then some p.2
    else
      match (if p.1 == idLDBG then readLDBG bytes p.2 i else some p.2) with
      | none => none
      | some st2 => lhdrSubLoop bytes fuel (exitBlock st2) i

def readLongs (bytes : List Nat) : Nat → HSt → Option (List Nat × HSt)
  | 0, st => some ([], st)
  | n + 1, st =>
    match readLong bytes st with
    | none => none
    | some (v, st) =>
      match readLongs bytes n st with
      | none => none
      | some (vs, st) => some (v :: vs, st)

/- bool Hip::readLHDR(int i, uint32_t* assetIDs).  The C code stores the
   member ids into a window of the shared layerAssetIDs array and keeps a
   pointer to it in lhdr[i]; the embedding stores the list directly. -/
def readLHDR (bytes : List Nat) (fuel : Nat) (st : HSt) (i : Nat) : Option HSt :=
  match readLong bytes st with
  | none => none
  | some (ty, st) =>
  match readLong bytes st with
  | none => none
  | some (n, st) =>
  match readLongs bytes n st with
  | none => none
  | some (ids, st) =>
    lhdrSubLoop bytes fuel { st with lhdr := st.lhdr.set i ⟨ty, n, ids⟩ } i

def ltocLoop (bytes : List Nat) : Nat → HSt → Option HSt
  | 0, _ => none
  | fuel + 1, st =>
    let p := enterBlock bytes st
    if p.1 == 0 then some p.2
    else
      let r : Option HSt :=
        if p.1 == idLINF then readLINF bytes p.2
        else if p.1 == idLHDR then
          match readLHDR bytes fuel p.2 p.2.lhdrParsed with
          | none => none
          | some st2 => some { st2 with lhdrParsed := st2.lhdrParsed + 1 }
        else some p.2
      match r with
      | none => none
      | some st2 => ltocLoop bytes fuel (exitBlock st2)

/- bool Hip::readLTOC(): like readATOC, the i == pcnt.layerCount check is
   only an assert. -/
def readLTOC (bytes : List Nat) (fuel : Nat) (st : HSt) : Option HSt :=
  ltocLoop bytes fuel { st with lhdrParsed := 0 }

def dictLoop (bytes : List Nat) : Nat → HSt → Option HSt
  | 0, _ => none
  | fuel + 1, st =>
    let p := enterBlock bytes st
    if p.1 == 0 then some p.2
    else
      let r : Option HSt :=
        if p.1 == idATOC then readATOC bytes fuel p.2
        else if p.1 == idLTOC then readLTOC bytes fuel p.2
        else some p.2
      match r with
      | none => none
      | some st2 => dictLoop bytes fuel (exitBlock st2)

/- bool Hip::readDICT(): allocates the (zero-initialized) asset and layer
   tables from the declared counts, then reads ATOC/LTOC. -/
def readDICT (bytes : List Nat) (fuel : Nat) (st : HSt) : Option HSt :=
  dictLoop bytes fuel
    { st with
      ahdr := List.replicate st.pcnt.assetCount ahdrP0,
      adbg := List.replicate st.pcnt.assetCount adbgP0,
      lhdr := List.replicate st.pcnt.layerCount lhdrP0,
      ldbg := List.replicate st.pcnt.layerCount 0 }

def readDHDR (bytes : List Nat) (st : HSt) : Option HSt :=
  match readLong bytes st with
  | none => none
  | some (a, st) => some { st with dhdr := a }

/- uint32_t wraparound of endpos - dataStart (both operands are uint32 in
   the C code) -/
def sub32 (a b : Nat) : Nat := (a + 4294967296 - b % 4294967296) % 4294967296

/- bool Hip::readDPAK().  Reads the pad amount, skips it, reads the whole
   remainder of the DPAK block into one buffer, and then sets every asset's
   data view to dpak.data + ahdr[i].offset - dataStart.  There is no check
   that offset - dataStart or offset - dataStart + size lies inside the
   buffer. -/
def readDPAK (bytes : List Nat) (st : HSt) : Option HSt :=
  if st.pcnt.assetCount == 0 then some st
  else
    match readLong bytes st with
    | none => none
    | some (pad, st) =>
      let st := { st with pos := st.pos + pad, dpakPad := pad }
      let dataStart := st.pos
      let dataSize := sub32 (st.stack.headD blk0).endpos dataStart
      if st.pos + dataSize ≤ bytes.length then
        some { st with
          pos := st.pos + dataSize,
          dpakData := (bytes.drop st.pos).take dataSize,
          ahdr := st.ahdr.map (fun a => { a with dataOff := (a.offset : Int) - (dataStart : Int) }) }
      else none

def strmLoop (bytes : List Nat) : Nat → HSt → Option HSt
  | 0, _ => none
  | fuel + 1, st =>
    let p := enterBlock bytes st
    if p.1 == 0 then some p.2
    else
      let r : Option HSt :=
        if p.1 == idDHDR then readDHDR bytes p.2
        else if p.1 == idDPAK then readDPAK bytes p.2
        else some p.2
      match r with
      | none => none
      | some st2 => strmLoop bytes fuel (exitBlock st2)

def readSTRM (bytes : List Nat) (fuel : Nat) (st : HSt) : Option HSt :=
  strmLoop bytes fuel st

def topHandler (bytes : List Nat) (fuel : Nat) (cid : Nat) (st : HSt) : Option HSt :=
  if cid == idHIPA then some st
  else if cid == idPACK then readPACK bytes fuel st
  else if cid == idDICT then readDICT bytes fuel st
  else if cid == idSTRM then readSTRM bytes fuel st
  else some st

/- bool Hip::read(): the top-level loop.  `valid` becomes true once a HIPA
   chunk has been read; after processing each top-level chunk the code
   returns false if valid is still false.  When enterBlock yields no chunk
   the loop exits and read returns true, whether or not anything (even a
   HIPA chunk) was ever read. -/
def readLoop (bytes : List Nat) : Nat → Bool → HSt → Option HSt
  | 0, _, _ => none
  | fuel + 1, valid, st =>
    let p := enterBlock bytes st
    if p.1 == 0 then some p.2
    else
      match topHandler bytes fuel p.1 p.2 with
      | none => none
      | some st2 =>
        let st3 := exitBlock st2
        let valid2 := valid || (p.1 == idHIPA)
        if valid2 then readLoop bytes fuel valid2 st3 else none

def hipRead (bytes : List Nat) (fuel : Nat) : Option HSt :=
  readLoop bytes fuel false hip0

/- ----------------------------------------------------------------- -/
/- Concrete byte streams used by the parser claims                   -/
/- ----------------------------------------------------------------- -/

/- the 4-byte big-endian encoding of n -/
def be32 (n : Nat) : List Nat :=
  [n / 16777216 % 256, n / 65536 % 256, n / 256 % 256, n % 256]

/- one chunk: tag(4) length(4) body -/
def chunk (bid : Nat) (body : List Nat) : List Nat :=
  be32 bid ++ be32 body.length ++ body

/- Modelled from the spec's description of the binary format (section 6,
   "each chunk is tag(4) length(4) body"): the nesting depth of a byte
   region viewed as a sequence of chunks.  Used only to state, for a
   concrete stream, that its chunk nesting exceeds the stack-depth cap. -/
def regionDepth (bytes : List Nat) : Nat → Nat
  | 0 => 0
  | fuel + 1 =>
    if bytes.length < 8 then 0
    else
      let len := long32At bytes 4
      max (1 + regionDepth ((bytes.drop 8).take len) fuel)
          (regionDepth ((bytes.drop 8).drop len) fuel)

/- a PCNT body declaring na assets and nl layers (the three size ceilings 0) -/
def pcntBody (na nl : Nat) : List Nat :=
  be32 na ++ be32 nl ++ be32 0 ++ be32 0 ++ be32 0

/- an AHDR body: id 7, type 1, offset 9999, size 50, plus 0, flags 0.
   The declared offset/size place the payload view far outside the 4-byte
   DPAK buffer below. -/
def oobAssetBody : List Nat :=
  be32 7 ++ be32 1 ++ be32 9999 ++ be32 50 ++ be32 0 ++ be32 0

/- a complete HIP file whose single asset declares an out-of-bounds
   payload view: HIPA, PACK(PCNT: 1 asset), DICT(ATOC(AHDR)), and a STRM
   whose DPAK carries a 4-byte payload -/
def oobBytes : List Nat :=
  chunk idHIPA [] ++
  chunk idPACK (chunk idPCNT (pcntBody 1 0)) ++
  chunk idDICT (chunk idATOC (chunk idAHDR oobAssetBody)) ++
  chunk idSTRM (chunk idDPAK (be32 0 ++ [1, 2, 3, 4]))

/- a complete HIP file that declares one asset in PCNT but contains no AHDR
   chunk at all in its ATOC -/
def countMismatchBytes : List Nat :=
  chunk idHIPA [] ++
  chunk idPACK (chunk idPCNT (pcntBody 1 0)) ++
  chunk idDICT (chunk idATOC [])

def nestChunks : Nat → List Nat
  | 0 => []
  | n + 1 => chunk 1111 (nestChunks n)

/- a HIPA chunk whose body is a tower of 8 nested chunks: 9 nested chunks
   in total, one more than the HIP_MAX_STACK_DEPTH cap of 8 -/
def deepBytes : List Nat := chunk idHIPA (nestChunks 8)

/- the asset paylod view (start offset into dpak.data, in bytes, possibly
   negative) stays inside a buffer of bufLen bytes -/
def viewInBounds (a : AhdrP) (bufLen : Nat) : Prop :=
  0 ≤ a.dataOff ∧ a.dataOff + (a.size : Int) ≤ (bufLen : Int)

instance (a : AhdrP) (bufLen : Nat) : Decidable (viewInBounds a bufLen) := by
  unfold viewInBounds; infer_instance

/- a helper for readDPAK proofs: getD through a map, at an in-range index -/
theorem getD_map_lt {α β : Type} (f : α → β) (l : List α) (j : Nat) (d : α) (d2 : β)
    (h : j < l.length) : (l.map f).getD j d2 = f (l.getD j d) := by
  induction l generalizing j with
  | nil => simp at h
  | cons x xs ih =>
    cases j with
    | zero => simp
    | succ n =>
      simp only [List.map_cons, List.getD_cons_succ]
      exact ih n (by simpa using h)

theorem sub32_of_le (a b : Nat) (h1 : b ≤ a) (h2 : a < 4294967296) : sub32 a b = a - b := by
  unfold sub32
  omega

/- ----------------------------------------------------------------- -/
/- Parser claims                                                     -/
/- ----------------------------------------------------------------- -/

/-- C1 counterexample: a complete HIP file whose single asset declares
payload offset 9999 / size 50 while the DPAK payload buffer holds only 4
bytes loads successfully; the returned archive's asset view
(buffer_start + declared_offset - data_start_offset, here 9887) lies far
outside the buffer, so the load did not fail with a bounds error. -/
theorem c1_oob_load_succeeds :
    (hipRead oobBytes 40).isSome = true ∧
    ((hipRead oobBytes 40).getD hip0).dpakData.length = 4 ∧
    ¬ viewInBounds (((hipRead oobBytes 40).getD hip0).ahdr.getD 0 ahdrP0)
        ((hipRead oobBytes 40).getD hip0).dpakData.length := by
  decide

/-- C1 (amended): readDPAK performs no bounds validation.  Whenever the pad
amount is readable, the remainder of the DPAK block is available, and some
asset's declared offset/size places its view outside that remainder, the
read still succeeds, the buffer is the block remainder, and the asset's
view is set to declared_offset - data_start_offset unchecked, leaving an
out-of-bounds view in the returned archive. -/
theorem c1_views_unchecked (bytes : List Nat) (st : HSt) (top : Blk) (rest : List Blk) (j : Nat)
    (hstack : st.stack = top :: rest)
    (hcnt : st.pcnt.assetCount ≠ 0)
    (hpad : st.pos + 4 ≤ bytes.length)
    (hds : st.pos + 4 + long32At bytes st.pos ≤ top.endpos)
    (hend : top.endpos < 4294967296)
    (hread : top.endpos ≤ bytes.length)
    (hj : j < st.ahdr.length)
    (hoob : ¬ viewInBounds
        { st.ahdr.getD j ahdrP0 with
            dataOff := ((st.ahdr.getD j ahdrP0).offset : Int)
              - ((st.pos + 4 + long32At bytes st.pos : Nat) : Int) }
        (top.endpos - (st.pos + 4 + long32At bytes st.pos))) :
    ∃ st2, readDPAK bytes st = some st2 ∧
      st2.dpakData.length = top.endpos - (st.pos + 4 + long32At bytes st.pos) ∧
      st2.ahdr.getD j ahdrP0 =
        { st.ahdr.getD j ahdrP0 with
            dataOff := ((st.ahdr.getD j ahdrP0).offset : Int)
              - ((st.pos + 4 + long32At bytes st.pos : Nat) : Int) } ∧
      ¬ viewInBounds (st2.ahdr.getD j ahdrP0) st2.dpakData.length := by
  have hbeq : (st.pcnt.assetCount == 0) = false := by simpa using hcnt
  unfold readDPAK
  rw [hbeq]
  simp only [Bool.false_eq_true, if_false, readLong, if_pos hpad]
  simp only [hstack, List.headD_cons]
  rw [sub32_of_le top.endpos (st.pos + 4 + long32At bytes st.pos) hds hend]
  have hcond : st.pos + 4 + long32At bytes st.pos
      + (top.endpos - (st.pos + 4 + long32At bytes st.pos)) ≤ bytes.length := by omega
  rw [if_pos hcond]
  refine ⟨_, rfl, ?_, ?_, ?_⟩
  · simp only [List.length_take, List.length_drop]
    omega
  · exact getD_map_lt _ _ _ _ _ hj
  · rw [getD_map_lt _ _ _ ahdrP0 _ hj]
    have hlen : (((bytes.drop (st.pos + 4 + long32At bytes st.pos)).take
        (top.endpos - (st.pos + 4 + long32At bytes st.pos))).length)
        = top.endpos - (st.pos + 4 + long32At bytes st.pos) := by
      simp only [List.length_take, List.length_drop]
      omega
    simpa [hlen] using hoob

def c1wSt : HSt :=
  { pos := 0,
    stack := [⟨idDPAK, 12⟩],
    pcnt := { assetCount := 1 },
    ahdr := [⟨7, 1, 9999, 50, 0, 0, 0⟩] }

def c1wBytes : List Nat := be32 0 ++ [1, 2, 3, 4, 0, 0, 0, 0]

/-- C1 witness: the unchecked-view theorem applied to a concrete DPAK state
whose single asset declares offset 9999 / size 50 against an 8-byte
payload. -/
theorem c1_views_unchecked_witness :
    ∃ st2, readDPAK c1wBytes c1wSt = some st2 ∧
      ¬ viewInBounds (st2.ahdr.getD 0 ahdrP0) st2.dpakData.length := by
  obtain ⟨st2, h1, _, _, h4⟩ :=
    c1_views_unchecked c1wBytes c1wSt ⟨idDPAK, 12⟩ [] 0 (by decide) (by decide)
      (by decide) (by decide) (by decide) (by decide) (by decide) (by decide)
  exact ⟨st2, h1, h4⟩

/-- C2 counterexample: the empty byte stream contains no HIPA chunk (no
chunk at all can be entered), yet Hip::read returns success with the
zero-initialized archive, so the load does not fail. -/
theorem c2_empty_stream_loads : hipRead [] 1 = some hip0 := by decide

/-- C2 (amended): the outcome of the top level.  If no chunk can be entered
at the outermost position (empty stream or fewer than 8 readable header
bytes), the load SUCCEEDS vacuously, returning the zero archive; if a first
top-level chunk is entered and its tag is not HIPA, the load fails after
processing that chunk.  So a missing identification chunk is fatal only
when at least one chunk was entered at the outermost level. -/
theorem c2_top_level (bytes : List Nat) (fuel : Nat) (h : 1 ≤ fuel) :
    ((enterBlock bytes hip0).1 = 0 → hipRead bytes fuel = some (enterBlock bytes hip0).2) ∧
    ((enterBlock bytes hip0).1 ≠ 0 → (enterBlock bytes hip0).1 ≠ idHIPA →
      hipRead bytes fuel = none) := by
  obtain ⟨n, rfl⟩ : ∃ n, fuel = n + 1 := ⟨fuel - 1, by omega⟩
  constructor
  · intro h0
    simp [hipRead, readLoop, h0]
  · intro h1 h2
    have e1 : ((enterBlock bytes hip0).1 == 0) = false := by simpa using h1
    have e2 : ((enterBlock bytes hip0).1 == idHIPA) = false := by simpa using h2
    simp only [hipRead, readLoop, e1, Bool.false_eq_true, if_false]
    cases htop : topHandler bytes n (enterBlock bytes hip0).1 (enterBlock bytes hip0).2 with
    | none => simp
    | some st2 => simp [e2]

/-- C2 witness: the empty stream takes the benign branch (load succeeds with
nothing parsed), and a stream whose first top-level chunk is a PACK chunk
takes the fatal branch (load fails). -/
theorem c2_top_level_witness :
    hipRead [] 1 = some (enterBlock [] hip0).2 ∧ hipRead (chunk idPACK []) 5 = none :=
  ⟨(c2_top_level [] 1 (by decide)).1 (by decide),
   (c2_top_level (chunk idPACK []) 5 (by decide)).2 (by decide) (by decide)⟩

/-- C5: a file declaring assetCount = 1 whose dictionary contains no AHDR
chunk loads successfully: readATOC's `i == pcnt.assetCount` check is only
an assert (compiled out of release builds), so the returned archive has a
declared count of 1 with 0 parsed asset records — the load does not fail as
the claim (and the code's own assertion) intends. -/
theorem c5_count_mismatch_ignored :
    (hipRead countMismatchBytes 30).isSome = true ∧
    ((hipRead countMismatchBytes 30).getD hip0).pcnt.assetCount = 1 ∧
    ((hipRead countMismatchBytes 30).getD hip0).ahdrParsed = 0 := by
  decide

/-- C6 counterexample: a stream whose chunk nesting is 9 deep (one more
than the HIP_MAX_STACK_DEPTH cap of 8) is loaded successfully — the deep
nesting sits inside the HIPA body, which the reader skips opaquely — so
exceeding-cap nesting does not abort the load. -/
theorem c6_deep_nesting_loads :
    8 < regionDepth deepBytes (deepBytes.length + 1) ∧
    (hipRead deepBytes 12).isSome = true := by
  decide

/-- C6 (amended): at the stack-depth cap, enterBlock returns the pair
(0, unchanged state) — exactly the "no chunk" signal that also encodes
benign end-of-scope — so callers treat depth overflow as the end of the
current chunk list (silent truncation), not as a fatal error; the reader's
fixed grammar never nests more than 4 deep, so the cap cannot actually be
reached from Hip::read. -/
theorem c6_cap_is_silent (bytes : List Nat) (st : HSt) (h : 8 ≤ st.stack.length) :
    enterBlock bytes st = (0, st) := by
  unfold enterBlock
  rw [if_pos h]

def st8 : HSt := { stack := List.replicate 8 blk0 }

/-- C6 witness: a state already 8 blocks deep, with readable bytes ahead,
still gets the "no chunk" answer. -/
theorem c6_cap_is_silent_witness : enterBlock (List.replicate 16 1) st8 = (0, st8) :=
  c6_cap_is_silent (List.replicate 16 1) st8 (by decide)

/- ----------------------------------------------------------------- -/
/- Part 2: the diff engine (main.cpp)                                -/
/- ----------------------------------------------------------------- -/

/- main.cpp diffs two Hip objects directly, so the archive type of the diff
   engine is HSt.  Every loop of the diff is bounded by the declared counts
   pcnt.assetCount / pcnt.layerCount, exactly as in the C code; table reads
   outside the lists yield the zero records (the C code would read the
   zero-initialized allocations). -/

def assetAt (h : HSt) (i : Nat) : AhdrP := h.ahdr.getD i ahdrP0

def adbgAt (h : HSt) (i : Nat) : AdbgP := h.adbg.getD i adbgP0

def lhdrAt (h : HSt) (i : Nat) : LhdrP := h.lhdr.getD i lhdrP0

def ldbgAt (h : HSt) (i : Nat) : Nat := h.ldbg.getD i 0

/- the asset ids of an archive, in table order -/
def aids (h : HSt) : List Nat := (List.range h.pcnt.assetCount).map (fun i => (assetAt h i).id)

/- the member-asset ids of layer i (the C code walks assetIDs[0..assetCount)) -/
def layerMembers (L : LhdrP) : List Nat :=
  (List.range L.assetCount).map (fun j => L.assetIDs.getD j 0)

/- generic list helpers (used in place of std::map / std::unordered_map
   iteration: keys are collected in first-insertion order and then listed
   in ascending order, matching std::map's sorted iteration; for the
   unordered_map of layer types the iteration order is unspecified in C++,
   and the ascending order is one admissible order) -/

def catMap {α β : Type} (f : α → List β) : List α → List β
  | [] => []
  | x :: xs => f x ++ catMap f xs

def addKey (xs : List Nat) (x : Nat) : List Nat := if xs.contains x then xs else xs ++ [x]

def keysOf (l : List Nat) : List Nat := l.foldl addKey []

def insertSorted (x : Nat) : List Nat → List Nat
  | [] => [x]
  | y :: rest => if x ≤ y then x :: y :: rest else y :: insertSorted x rest

def sortNat (l : List Nat) : List Nat := l.foldr insertSorted []

/- the last element of the list satisfying p (the repeated-overwrite
   semantics of map[key] = i inside an ascending loop) -/
def lastSuch? (p : Nat → Bool) : List Nat → Option Nat
  | [] => none
  | x :: rest =>
    match lastSuch? p rest with
    | some y => some y
    | none => if p x then some x else none

/- struct Index { int oidx = -1; int midx = -1; }; absence is none -/
structure Index where
  oidx : Option Nat := none
  midx : Option Nat := none
deriving DecidableEq

def idx0 : Index := {}

/- ahdrIndices: asset id → (index in original, index in modified) -/

def assetIdxOf (h : HSt) (aid : Nat) : Option Nat :=
  lastSuch? (fun i => (assetAt h i).id == aid) (List.range h.pcnt.assetCount)

def assetIndexF (o m : HSt) (aid : Nat) : Index :=
  ⟨assetIdxOf o aid, assetIdxOf m aid⟩

def assetKeys (o m : HSt) : List Nat := sortNat (keysOf (aids o ++ aids m))

/- the addedAssets / deletedAssets id sets filled during the asset pass -/

def addedAssets (o m : HSt) : List Nat :=
  (assetKeys o m).filter (fun aid => (assetIndexF o m aid).oidx.isNone)

def deletedAssets (o m : HSt) : List Nat :=
  (assetKeys o m).filter (fun aid => (assetIndexF o m aid).midx.isNone)

/- lhdrIndices: layer type → ordered pair list, built exactly like the two
   loops of main.cpp: the first loop pushes one entry per original layer in
   file order; the second walks the modified layers, filling midx of the
   positionally matching entry or appending a surplus entry. -/

def ltypeAt (h : HSt) (i : Nat) : Nat := (lhdrAt h i).type

def layerIdxsOfType (h : HSt) (t : Nat) : List Nat :=
  (List.range h.pcnt.layerCount).filter (fun i => ltypeAt h i == t)

def lhdrBuildO (o : HSt) : Nat → List Index :=
  (List.range o.pcnt.layerCount).foldl
    (fun f i => fun u => if u == ltypeAt o i then f u ++ [⟨some i, none⟩] else f u)
    (fun _ => [])

structure MState where
  buckets : Nat → List Index
  counts : Nat → Nat

def lhdrStepM (m : HSt) (st : MState) (i : Nat) : MState :=
  let t := ltypeAt m i
  let cnt := st.counts t
  let bucket := st.buckets t
  { buckets :=
      if bucket.length < cnt + 1 then
        fun u => if u == t then bucket ++ [⟨none, some i⟩] else st.buckets u
      else
        fun u => if u == t then bucket.set cnt ⟨(bucket.getD cnt idx0).oidx, some i⟩
                 else st.buckets u,
    counts := fun u => if u == t then cnt + 1 else st.counts u }

def lhdrBuild (o m : HSt) : Nat → List Index :=
  ((List.range m.pcnt.layerCount).foldl (lhdrStepM m) ⟨lhdrBuildO o, fun _ => 0⟩).buckets

def layerTypeKeys (o m : HSt) : List Nat :=
  sortNat (keysOf ((List.range o.pcnt.layerCount).map (ltypeAt o)
    ++ (List.range m.pcnt.layerCount).map (ltypeAt m)))

/- ahdrLHDRIndices: asset id → (containing layer index in each archive,
   last containing layer winning, as in the overwriting loops) -/

def lastLayerIdx? (h : HSt) (aid : Nat) : Option Nat :=
  lastSuch? (fun i => (layerMembers (lhdrAt h i)).contains aid) (List.range h.pcnt.layerCount)

def memberIndexF (o m : HSt) (aid : Nat) : Index :=
  ⟨lastLayerIdx? o aid, lastLayerIdx? m aid⟩

def memberKeys (o m : HSt) : List Nat :=
  sortNat (keysOf
    (catMap (fun i => layerMembers (lhdrAt o i)) (List.range o.pcnt.layerCount)
      ++ catMap (fun i => layerMembers (lhdrAt m i)) (List.range m.pcnt.layerCount)))

/- diff records.  The reporting boundary (text rendering with sprintf,
   colors, column widths) is outside the core per the spec; each emitted
   line is recorded as its kind plus the identity of the record/field it
   was generated from (the id arguments are the generating asset id /
   layer type, from which the C code renders names via the index maps). -/

inductive DTy
  | addition
  | deletion
  | modification
deriving DecidableEq

inductive Content where
  | field (label : String)
  | platString (i : Nat)
  | assetRec (aid : Nat)
  | assetField (aid : Nat) (label : String)
  | member (aid : Nat)
  | layerRec (t : Nat)
  | layerField (t : Nat) (label : String)
deriving DecidableEq

structure DRec where
  dty : DTy
  content : Content
deriving DecidableEq

def modIf (b : Bool) (c : Content) : List DRec := if b then [⟨.modification, c⟩] else []

structure Options where
  assetDiffsOnly : Bool := false
  detailedAssets : Bool := false
  ignoreDataIfChksumMatch : Bool := false
  diffOffsets : Bool := false
  diffPluses : Bool := false
deriving DecidableEq

/- header sub-record buckets (one MODIFICATION per differing field, pushed
   with counting enabled) -/

def pverDiffsF (o m : HSt) : List DRec :=
  modIf (o.pver.subVersion != m.pver.subVersion) (.field "subVersion") ++
  modIf (o.pver.clientVersion != m.pver.clientVersion) (.field "clientVersion") ++
  modIf (o.pver.compatVersion != m.pver.compatVersion) (.field "compatVersion")

def pflgDiffsF (o m : HSt) : List DRec := modIf (o.pflg != m.pflg) (.field "flags")

def pcntDiffsF (o m : HSt) : List DRec :=
  modIf (o.pcnt.assetCount != m.pcnt.assetCount) (.field "assetCount") ++
  modIf (o.pcnt.layerCount != m.pcnt.layerCount) (.field "layerCount") ++
  modIf (o.pcnt.maxAssetSize != m.pcnt.maxAssetSize) (.field "maxAssetSize") ++
  modIf (o.pcnt.maxLayerSize != m.pcnt.maxLayerSize) (.field "maxLayerSize") ++
  modIf (o.pcnt.maxXformAssetSize != m.pcnt.maxXformAssetSize) (.field "maxXformAssetSize")

def pcrtDiffsF (o m : HSt) : List DRec :=
  modIf (o.pcrt.time != m.pcrt.time) (.field "time") ++
  modIf (o.pcrt.str != m.pcrt.str) (.field "string")

def pmodDiffsF (o m : HSt) : List DRec := modIf (o.pmodTime != m.pmodTime) (.field "time")

def platStrAt (h : HSt) (i : Nat) : List Nat := h.plat.strings.getD i []

/- the PLAT bucket: presence asymmetry emits one line for the id and one
   line per string (each counting); when present on both, the id and each
   string position are compared, out-of-range positions becoming pure
   additions/deletions -/
def platDiffsF (o m : HSt) : List DRec :=
  if o.plat.ex || m.plat.ex then
    if o.plat.ex != m.plat.ex then
      if o.plat.ex then
        ⟨.deletion, .field "plat id"⟩ ::
          (List.range o.plat.stringCount).map (fun i => ⟨.deletion, .platString i⟩)
      else
        ⟨.addition, .field "plat id"⟩ ::
          (List.range m.plat.stringCount).map (fun i => ⟨.addition, .platString i⟩)
    else
      modIf (o.plat.id != m.plat.id) (.field "plat id") ++
      catMap (fun i =>
          if o.plat.stringCount ≤ i then [⟨.addition, .platString i⟩]
          else if m.plat.stringCount ≤ i then [⟨.deletion, .platString i⟩]
          else modIf (platStrAt m i != platStrAt o i) (.platString i))
        (List.range (max o.plat.stringCount m.plat.stringCount))
  else []

def ainfDiffsF (o m : HSt) : List DRec := modIf (o.ainf != m.ainf) (.field "ainf")

/- the asset payload bytes actually compared by memcmp: n bytes starting at
   dpak.data + dataOff -/
def viewBytes (h : HSt) (a : AhdrP) (n : Nat) : List Nat :=
  (List.range n).map (fun k => h.dpakData.getD (a.dataOff + (k : Int)).toNat 0)

/- the dataChanged flag: with the checksum shortcut enabled only the debug
   checksums are compared; otherwise equal sizes trigger a byte-for-byte
   memcmp over oahdr.size bytes, and a size mismatch is dataChanged without
   any byte comparison -/
def dataChangedF (opts : Options) (o m : HSt) (oa ma : AhdrP) (od md : AdbgP) : Bool :=
  if opts.ignoreDataIfChksumMatch then od.checksum != md.checksum
  else if oa.size == ma.size then viewBytes o oa oa.size != viewBytes m ma oa.size
  else true

/- one record-level event's contribution: the lines it appends to the three
   buckets of its kind, its increments of the three global counters
   (reproducing the countsEnabled discipline: detail lines are pushed with
   counting off and each record-level event bumps its counter once, except
   that PLAT lines count per line and membership join/leave lines bump
   additionCount/deletionCount explicitly), and its increments of the
   per-section numX totals -/
structure Contrib where
  adds : List DRec := []
  dels : List DRec := []
  mods : List DRec := []
  addC : Nat := 0
  delC : Nat := 0
  modC : Nat := 0
  nAdd : Nat := 0
  nDel : Nat := 0
  nMod : Nat := 0
deriving DecidableEq

def Contrib.merge (a b : Contrib) : Contrib :=
  ⟨a.adds ++ b.adds, a.dels ++ b.dels, a.mods ++ b.mods,
   a.addC + b.addC, a.delC + b.delC, a.modC + b.modC,
   a.nAdd + b.nAdd, a.nDel + b.nDel, a.nMod + b.nMod⟩

def csum : List Contrib → Contrib
  | [] => {}
  | c :: rest => c.merge (csum rest)

def assetDetailLabels : List String :=
  ["id", "type", "offset", "size", "plus", "flags", "ADBG", "align", "name", "filename",
   "checksum"]

def assetAddLines (opts : Options) (aid : Nat) : List DRec :=
  if opts.detailedAssets then
    ⟨.addition, .assetRec aid⟩ :: assetDetailLabels.map (fun s => ⟨.addition, .assetField aid s⟩)
  else [⟨.addition, .assetRec aid⟩]

def assetDelLines (opts : Options) (aid : Nat) : List DRec :=
  if opts.detailedAssets then
    ⟨.deletion, .assetRec aid⟩ :: assetDetailLabels.map (fun s => ⟨.deletion, .assetField aid s⟩)
  else [⟨.deletion, .assetRec aid⟩]

def ahdrModLines (opts : Options) (aid : Nat) (oa ma : AhdrP) (dc : Bool) : List DRec :=
  ⟨.modification, .assetRec aid⟩ ::
  (modIf (oa.id != ma.id) (.assetField aid "id") ++
   modIf (oa.type != ma.type) (.assetField aid "type") ++
   modIf ((oa.offset != ma.offset) && opts.diffOffsets) (.assetField aid "offset") ++
   modIf (oa.size != ma.size) (.assetField aid "size") ++
   modIf ((oa.plus != ma.plus) && opts.diffPluses) (.assetField aid "plus") ++
   modIf (oa.flags != ma.flags) (.assetField aid "flags") ++
   modIf dc (.assetField aid "data changed"))

def adbgModLines (aid : Nat) (od md : AdbgP) : List DRec :=
  ⟨.modification, .assetField aid "ADBG"⟩ ::
  (modIf (od.align != md.align) (.assetField aid "align") ++
   modIf (od.name != md.name) (.assetField aid "name") ++
   modIf (od.filename != md.filename) (.assetField aid "filename") ++
   modIf (od.checksum != md.checksum) (.assetField aid "checksum"))

/- the present-on-both asset comparison; returns the bucket lines and 1 iff
   the pair counts as one modification (detailed mode: some sub-list grew
   beyond its header line; summary mode: the single big disjunction) -/
def assetPairDiff (opts : Options) (o m : HSt) (aid oi mi : Nat) : List DRec × Nat :=
  let oa := assetAt o oi
  let ma := assetAt m mi
  let od := adbgAt o oi
  let md := adbgAt m mi
  let dc := dataChangedF opts o m oa ma od md
  if opts.detailedAssets then
    let hM := ahdrModLines opts aid oa ma dc
    let dM := adbgModLines aid od md
    if 1 < hM.length || 1 < dM.length then
      (hM ++ (if 1 < dM.length then dM else []), 1)
    else ([], 0)
  else
    if oa.id != ma.id || oa.type != ma.type || ((oa.offset != ma.offset) && opts.diffOffsets)
        || oa.size != ma.size || ((oa.plus != ma.plus) && opts.diffPluses)
        || oa.flags != ma.flags || od.align != md.align || od.name != md.name
        || od.filename != md.filename || od.checksum != md.checksum || dc then
      ([⟨.modification, .assetRec aid⟩], 1)
    else ([], 0)

def assetEvent (opts : Options) (o m : HSt) (aid : Nat) : Contrib :=
  match (assetIndexF o m aid).oidx, (assetIndexF o m aid).midx with
  | none, none => {}
  | none, some _ => { adds := assetAddLines opts aid, addC := 1, nAdd := 1 }
  | some _, none => { dels := assetDelLines opts aid, delC := 1, nDel := 1 }
  | some oi, some mi =>
    let r := assetPairDiff opts o m aid oi mi
    { mods := r.1, modC := r.2, nMod := r.2 }

def assetPass (opts : Options) (o m : HSt) : Contrib :=
  csum ((assetKeys o m).map (assetEvent opts o m))

/- the member line of an added layer: suppressed when the asset was already
   reported as an individual addition -/
def addMemberLine (o m : HSt) (aid : Nat) : List DRec :=
  if (addedAssets o m).contains aid then [] else [⟨.addition, .member aid⟩]

def delMemberLine (o m : HSt) (aid : Nat) : List DRec :=
  if (deletedAssets o m).contains aid then [] else [⟨.deletion, .member aid⟩]

/- a wholesale-added layer: its member assets are listed except those
   already reported as individually added; the whole record counts once -/
def layerAddLines (o m : HSt) (mi : Nat) : List DRec :=
  let L := lhdrAt m mi
  ⟨.addition, .layerRec L.type⟩ :: ⟨.addition, .layerField L.type "type"⟩ ::
  (catMap (addMemberLine o m) (layerMembers L) ++
   [⟨.addition, .layerField L.type "LDBG"⟩, ⟨.addition, .layerField L.type "ldbg"⟩])

def layerDelLines (o m : HSt) (oi : Nat) : List DRec :=
  let L := lhdrAt o oi
  ⟨.deletion, .layerRec L.type⟩ :: ⟨.deletion, .layerField L.type "type"⟩ ::
  (catMap (delMemberLine o m) (layerMembers L) ++
   [⟨.deletion, .layerField L.type "LDBG"⟩, ⟨.deletion, .layerField L.type "ldbg"⟩])

/- the membership comparison of a matched layer pair for one asset id: a
   join (moved into the modified layer of this slot) or a leave (moved out
   of the original layer of this slot), suppressing globally added/deleted
   assets -/
def memberLine (o m : HSt) (oi mi : Nat) (aid : Nat) : List DRec :=
  let x := memberIndexF o m aid
  if x.oidx == some oi || x.midx == some mi then
    if x.oidx != some oi then
      (if (addedAssets o m).contains aid then [] else [⟨.addition, .member aid⟩])
    else if x.midx != some mi then
      (if (deletedAssets o m).contains aid then [] else [⟨.deletion, .member aid⟩])
    else []
  else []

/- a matched layer pair: membership joins/leaves (suppressing globally
   added/deleted assets) plus the LDBG field; joins and leaves bump the
   global addition/deletion counters directly, and the pair counts as one
   modification iff any membership line or LDBG line was produced -/
def layerPairDiff (o m : HSt) (oi mi : Nat) : List DRec × (Nat × Nat × Nat) :=
  let oL := lhdrAt o oi
  let mL := lhdrAt m mi
  let memLines := catMap (memberLine o m oi mi) (memberKeys o m)
  let hM := ⟨.modification, .layerRec oL.type⟩ ::
    (modIf (oL.type != mL.type) (.layerField oL.type "type") ++ memLines)
  let dM := ⟨.modification, .layerField oL.type "LDBG"⟩ ::
    modIf (ldbgAt o oi != ldbgAt m mi) (.layerField oL.type "ldbg")
  let addN := (memLines.filter (fun r => r.dty == DTy.addition)).length
  let delN := (memLines.filter (fun r => r.dty == DTy.deletion)).length
  let merged := 1 < hM.length || 1 < dM.length
  ((if merged then hM ++ (if 1 < dM.length then dM else []) else []),
   (addN, delN, if merged then 1 else 0))

def layerEvent (o m : HSt) (pr : Index) : Contrib :=
  match pr.oidx, pr.midx with
  | none, none => {}
  | none, some mi => { adds := layerAddLines o m mi, addC := 1, nAdd := 1 }
  | some oi, none => { dels := layerDelLines o m oi, delC := 1, nDel := 1 }
  | some oi, some mi =>
    let r := layerPairDiff o m oi mi
    { mods := r.1, addC := r.2.1, delC := r.2.2.1, modC := r.2.2.2, nMod := r.2.2.2 }

def layerPairList (o m : HSt) : List Index := catMap (lhdrBuild o m) (layerTypeKeys o m)

def layerPass (o m : HSt) : Contrib := csum ((layerPairList o m).map (layerEvent o m))

structure Report where
  pverDiffs : List DRec
  pflgDiffs : List DRec
  pcntDiffs : List DRec
  pcrtDiffs : List DRec
  pmodDiffs : List DRec
  platDiffs : List DRec
  ainfDiffs : List DRec
  assetAdditions : List DRec
  assetDeletions : List DRec
  assetModifications : List DRec
  layerAdditions : List DRec
  layerDeletions : List DRec
  layerModifications : List DRec
  additionCount : Nat
  deletionCount : Nat
  modificationCount : Nat
  numAssetsAdded : Nat
  numAssetsDeleted : Nat
  numAssetsModified : Nat
  numLayersAdded : Nat
  numLayersDeleted : Nat
  numLayersModified : Nat
deriving DecidableEq

def countTy (t : DTy) (l : List DRec) : Nat := (l.filter (fun r => r.dty == t)).length

/- the whole diff of main.cpp (between loading and printing): header
   sub-records, asset pass, layer pass, with the three global counters and
   the per-section totals -/
def hipdiff (opts : Options) (o m : HSt) : Report :=
  let hd := !opts.assetDiffsOnly
  let pv := if hd then pverDiffsF o m else []
  let pf := if hd then pflgDiffsF o m else []
  let pc := if hd then pcntDiffsF o m else []
  let pr := if hd then pcrtDiffsF o m else []
  let pm := if hd then pmodDiffsF o m else []
  let pl := if hd then platDiffsF o m else []
  let ai := if hd then ainfDiffsF o m else []
  let hdrAll := pv ++ pf ++ pc ++ pr ++ pm ++ pl ++ ai
  let ac := assetPass opts o m
  let lc := if hd then layerPass o m else {}
  { pverDiffs := pv, pflgDiffs := pf, pcntDiffs := pc, pcrtDiffs := pr,
    pmodDiffs := pm, platDiffs := pl, ainfDiffs := ai,
    assetAdditions := ac.adds, assetDeletions := ac.dels, assetModifications := ac.mods,
    layerAdditions := lc.adds, layerDeletions := lc.dels, layerModifications := lc.mods,
    additionCount := countTy .addition hdrAll + ac.addC + lc.addC,
    deletionCount := countTy .deletion hdrAll + ac.delC + lc.delC,
    modificationCount := countTy .modification hdrAll + ac.modC + lc.modC,
    numAssetsAdded := ac.nAdd, numAssetsDeleted := ac.nDel, numAssetsModified := ac.nMod,
    numLayersAdded := lc.nAdd, numLayersDeleted := lc.nDel, numLayersModified := lc.nMod }

/- static void hackPCRTString(char* str): reads str[strlen(str) - 1]; when
   the string is empty the index underflows and the access is out of the
   buffer's bounds, modeled as none; otherwise a trailing newline is
   replaced by the terminator.  main applies it unconditionally to both
   archives' creation strings before diffing. -/
def hackPCRTString (str : List Nat) : Option (List Nat) :=
  if str.length = 0 then none
  else if str.getLast? == some 10 then some str.dropLast
  else some str

/- ----------------------------------------------------------------- -/
/- Helper lemmas about the list utilities                            -/
/- ----------------------------------------------------------------- -/

theorem mem_catMap {α β : Type} (f : α → List β) (l : List α) (b : β) :
    b ∈ catMap f l ↔ ∃ a ∈ l, b ∈ f a := by
  induction l with
  | nil => simp [catMap]
  | cons x xs ih =>
    simp only [catMap, List.mem_append, ih, List.mem_cons]
    constructor
    · rintro (hb | ⟨a, ha, hb⟩)
      · exact ⟨x, Or.inl rfl, hb⟩
      · exact ⟨a, Or.inr ha, hb⟩
    · rintro ⟨a, ha | ha, hb⟩
      · subst ha; exact Or.inl hb
      · exact Or.inr ⟨a, ha, hb⟩

theorem catMap_nil {α β : Type} (f : α → List β) (l : List α) (h : ∀ a ∈ l, f a = []) :
    catMap f l = [] := by
  induction l with
  | nil => rfl
  | cons x xs ih =>
    simp [catMap, h x (by simp), ih (fun a ha => h a (by simp [ha]))]

theorem contains_iff (l : List Nat) (x : Nat) : l.contains x = true ↔ x ∈ l := by
  induction l with
  | nil => simp
  | cons y ys ih => simp [List.contains_cons] at ih ⊢

theorem mem_addKey (xs : List Nat) (y x : Nat) : x ∈ addKey xs y ↔ x ∈ xs ∨ x = y := by
  unfold addKey
  by_cases h : xs.contains y = true
  · rw [if_pos h]
    constructor
    · exact Or.inl
    · rintro (h1 | rfl)
      · exact h1
      · exact (contains_iff xs x).1 h
  · rw [if_neg h]
    simp

theorem mem_foldl_addKey (l : List Nat) (acc : List Nat) (x : Nat) :
    x ∈ l.foldl addKey acc ↔ x ∈ acc ∨ x ∈ l := by
  induction l generalizing acc with
  | nil => simp
  | cons y ys ih =>
    simp only [List.foldl_cons, ih, mem_addKey, List.mem_cons]
    tauto

theorem nodup_addKey (xs : List Nat) (y : Nat) (h : xs.Nodup) : (addKey xs y).Nodup := by
  unfold addKey
  by_cases hc : xs.contains y = true
  · rw [if_pos hc]; exact h
  · rw [if_neg hc]
    have hy : y ∉ xs := fun hm => hc ((contains_iff xs y).2 hm)
    simp [List.nodup_append, h, hy]

theorem nodup_foldl_addKey (l : List Nat) (acc : List Nat) (h : acc.Nodup) :
    (l.foldl addKey acc).Nodup := by
  induction l generalizing acc with
  | nil => exact h
  | cons y ys ih => exact ih _ (nodup_addKey acc y h)

theorem mem_keysOf (l : List Nat) (x : Nat) : x ∈ keysOf l ↔ x ∈ l := by
  simp [keysOf, mem_foldl_addKey]

theorem nodup_keysOf (l : List Nat) : (keysOf l).Nodup :=
  nodup_foldl_addKey l [] (by simp)

theorem insertSorted_perm (x : Nat) (l : List Nat) : (insertSorted x l).Perm (x :: l) := by
  induction l with
  | nil => exact List.Perm.refl _
  | cons y ys ih =>
    unfold insertSorted
    by_cases h : x ≤ y
    · rw [if_pos h]
    · rw [if_neg h]
      exact (ih.cons y).trans (List.Perm.swap x y ys)

theorem sortNat_perm (l : List Nat) : (sortNat l).Perm l := by
  induction l with
  | nil => exact List.Perm.refl _
  | cons x xs ih => exact (insertSorted_perm x (sortNat xs)).trans (ih.cons x)

theorem mem_sortNat (l : List Nat) (x : Nat) : x ∈ sortNat l ↔ x ∈ l :=
  (sortNat_perm l).mem_iff

theorem nodup_sortNat (l : List Nat) (h : l.Nodup) : (sortNat l).Nodup :=
  ((sortNat_perm l).nodup_iff).2 h

theorem lastSuch?_eq_none {p : Nat → Bool} {l : List Nat} :
    lastSuch? p l = none ↔ ∀ x ∈ l, p x = false := by
  induction l with
  | nil => simp [lastSuch?]
  | cons x xs ih =>
    unfold lastSuch?
    cases h : lastSuch? p xs with
    | some y =>
      simp only [h]
      constructor
      · intro hc; exact absurd hc (by simp)
      · intro hall
        have : lastSuch? p xs = none := ih.2 (fun a ha => hall a (by simp [ha]))
        rw [h] at this; exact absurd this (by simp)
    | none =>
      have hxs := ih.1 h
      simp only [h]
      by_cases hp : p x = true
      · simp [hp]
      · simp only [Bool.not_eq_true] at hp
        rw [if_neg (by simp [hp])]
        constructor
        · intro _ a ha
          rcases List.mem_cons.1 ha with rfl | ha2
          · exact hp
          · exact hxs a ha2
        · intro _; rfl

theorem lastSuch?_mem {p : Nat → Bool} {l : List Nat} {y : Nat} (h : lastSuch? p l = some y) :
    y ∈ l ∧ p y = true := by
  induction l with
  | nil => simp [lastSuch?] at h
  | cons x xs ih =>
    unfold lastSuch? at h
    cases h2 : lastSuch? p xs with
    | some z =>
      rw [h2] at h
      obtain rfl : z = y := by simpa using h
      obtain ⟨hm, hp⟩ := ih h2
      exact ⟨by simp [hm], hp⟩
    | none =>
      rw [h2] at h
      by_cases hp : p x = true
      · rw [if_pos hp] at h
        obtain rfl : x = y := by simpa using h
        exact ⟨by simp, hp⟩
      · rw [if_neg hp] at h
        exact absurd h (by simp)

/- ----------------------------------------------------------------- -/
/- Characterizing the matcher tables                                 -/
/- ----------------------------------------------------------------- -/

theorem assetIdxOf_none_iff (h : HSt) (aid : Nat) :
    assetIdxOf h aid = none ↔ aid ∉ aids h := by
  rw [assetIdxOf, lastSuch?_eq_none]
  constructor
  · intro hall hmem
    obtain ⟨i, hi, hei⟩ := List.mem_map.1 hmem
    have hfalse := hall i hi
    rw [beq_eq_false_iff_ne] at hfalse
    exact hfalse hei
  · intro hne i hi
    by_contra hcon
    rw [Bool.not_eq_false, beq_iff_eq] at hcon
    exact hne (List.mem_map.2 ⟨i, hi, hcon⟩)

theorem assetIdxOf_some (h : HSt) (aid i : Nat) (hs : assetIdxOf h aid = some i) :
    i < h.pcnt.assetCount ∧ (assetAt h i).id = aid := by
  have hm := lastSuch?_mem hs
  constructor
  · simpa using hm.1
  · simpa using hm.2

theorem lastLayerIdx?_some (h : HSt) (aid i : Nat) (hs : lastLayerIdx? h aid = some i) :
    i < h.pcnt.layerCount ∧ aid ∈ layerMembers (lhdrAt h i) := by
  have hm := lastSuch?_mem hs
  exact ⟨by simpa using hm.1, (contains_iff _ _).1 hm.2⟩

/- every layer's member ids are ids of assets of the same archive (the
   well-formedness the diff engine relies on when resolving member names
   through ahdrIndices) -/
def layersWFb (h : HSt) : Bool :=
  (List.range h.pcnt.layerCount).all
    (fun i => (layerMembers (lhdrAt h i)).all (fun aid => (aids h).contains aid))

theorem layersWF_mem (h : HSt) (hw : layersWFb h = true) (i : Nat) (hi : i < h.pcnt.layerCount)
    (aid : Nat) (hm : aid ∈ layerMembers (lhdrAt h i)) : aid ∈ aids h := by
  rw [layersWFb, List.all_eq_true] at hw
  have h1 := hw i (by simpa using hi)
  rw [List.all_eq_true] at h1
  exact (contains_iff _ _).1 (h1 aid hm)

theorem mem_assetKeys (o m : HSt) (aid : Nat) :
    aid ∈ assetKeys o m ↔ aid ∈ aids o ∨ aid ∈ aids m := by
  simp [assetKeys, mem_sortNat, mem_keysOf]

theorem nodup_assetKeys (o m : HSt) : (assetKeys o m).Nodup :=
  nodup_sortNat _ (nodup_keysOf _)

theorem mem_addedAssets (o m : HSt) (aid : Nat) :
    aid ∈ addedAssets o m ↔ aid ∈ aids m ∧ assetIdxOf o aid = none := by
  simp only [addedAssets, List.mem_filter, mem_assetKeys, assetIndexF,
    Option.isNone_iff_eq_none]
  constructor
  · rintro ⟨ho | hm, hn⟩
    · exact (((assetIdxOf_none_iff o aid).1 hn) ho).elim
    · exact ⟨hm, hn⟩
  · rintro ⟨hm, hn⟩
    exact ⟨Or.inr hm, hn⟩

theorem mem_deletedAssets (o m : HSt) (aid : Nat) :
    aid ∈ deletedAssets o m ↔ aid ∈ aids o ∧ assetIdxOf m aid = none := by
  simp only [deletedAssets, List.mem_filter, mem_assetKeys, assetIndexF,
    Option.isNone_iff_eq_none]
  constructor
  · rintro ⟨ho | hm, hn⟩
    · exact ⟨ho, hn⟩
    · exact (((assetIdxOf_none_iff m aid).1 hn) hm).elim
  · rintro ⟨ho, hn⟩
    exact ⟨Or.inl ho, hn⟩

/- the positional pairing that the two construction loops realize -/
def mergePairs : List Nat → List Nat → List Index
  | [], [] => []
  | a :: xs, [] => ⟨some a, none⟩ :: mergePairs xs []
  | [], b :: ys => ⟨none, some b⟩ :: mergePairs [] ys
  | a :: xs, b :: ys => ⟨some a, some b⟩ :: mergePairs xs ys

theorem mergePairs_nil_right (xs : List Nat) :
    mergePairs xs [] = xs.map (fun i => ⟨some i, none⟩) := by
  induction xs with
  | nil => simp [mergePairs]
  | cons a xs ih => simp [mergePairs, ih]

theorem mergePairs_nil_left (ys : List Nat) :
    mergePairs [] ys = ys.map (fun i => ⟨none, some i⟩) := by
  induction ys with
  | nil => simp [mergePairs]
  | cons b ys ih => simp [mergePairs, ih]

theorem mergePairs_length (xs ys : List Nat) :
    (mergePairs xs ys).length = max xs.length ys.length := by
  induction xs generalizing ys with
  | nil => rw [mergePairs_nil_left]; simp
  | cons a xs ih =>
    cases ys with
    | nil => rw [mergePairs_nil_right]; simp
    | cons b ys => simp [mergePairs, ih]; omega

theorem mergePairs_getD (xs : List Nat) (ys : List Nat) (k : Nat)
    (h : k < max xs.length ys.length) :
    (mergePairs xs ys).getD k idx0 = ⟨xs[k]?, ys[k]?⟩ := by
  induction xs generalizing ys k with
  | nil =>
    induction ys generalizing k with
    | nil => simp at h
    | cons b ys ihy =>
      cases k with
      | zero => simp [mergePairs]
      | succ n =>
        have := ihy n (by simp at h ⊢; omega)
        simpa [mergePairs] using this
  | cons a xs ih =>
    cases ys with
    | nil =>
      cases k with
      | zero => simp [mergePairs]
      | succ n =>
        have := ih [] n (by simp at h ⊢; omega)
        simpa [mergePairs] using this
    | cons b ys =>
      cases k with
      | zero => simp [mergePairs]
      | succ n =>
        have := ih ys n (by simp at h ⊢; omega)
        simpa [mergePairs] using this

theorem mem_mergePairs (xs ys : List Nat) (pr : Index) (h : pr ∈ mergePairs xs ys) :
    (∀ i, pr.oidx = some i → i ∈ xs) ∧ (∀ i, pr.midx = some i → i ∈ ys) := by
  induction xs generalizing ys with
  | nil =>
    induction ys with
    | nil => simp [mergePairs] at h
    | cons b ys ihy =>
      rw [mergePairs] at h
      rcases List.mem_cons.1 h with rfl | h2
      · constructor
        · intro i hi; simp at hi
        · intro i hi; simp at hi; simp [hi]
      · obtain ⟨h1, h2⟩ := ihy h2
        exact ⟨h1, fun i hi => by simpa using Or.inr (h2 i hi)⟩
  | cons a xs ih =>
    cases ys with
    | nil =>
      rw [mergePairs] at h
      rcases List.mem_cons.1 h with rfl | h2
      · constructor
        · intro i hi; simp at hi; simp [hi]
        · intro i hi; simp at hi
      · obtain ⟨h1, h2⟩ := ih [] h2
        exact ⟨fun i hi => by simpa using Or.inr (h1 i hi), h2⟩
    | cons b ys =>
      rw [mergePairs] at h
      rcases List.mem_cons.1 h with rfl | h2
      · constructor
        · intro i hi; simp at hi; simp [hi]
        · intro i hi; simp at hi; simp [hi]
      · obtain ⟨h1, h2⟩ := ih ys h2
        exact ⟨fun i hi => by simpa using Or.inr (h1 i hi),
               fun i hi => by simpa using Or.inr (h2 i hi)⟩

theorem mergePairs_self (xs : List Nat) :
    mergePairs xs xs = xs.map (fun i => ⟨some i, some i⟩) := by
  induction xs with
  | nil => simp [mergePairs]
  | cons a xs ih => simp [mergePairs, ih]

theorem mergePairs_snoc_le (xs ys : List Nat) (b : Nat) (h : xs.length ≤ ys.length) :
    mergePairs xs (ys ++ [b]) = mergePairs xs ys ++ [⟨none, some b⟩] := by
  induction xs generalizing ys with
  | nil =>
    rw [mergePairs_nil_left, mergePairs_nil_left]
    simp
  | cons a xs ih =>
    cases ys with
    | nil => simp at h
    | cons c ys =>
      simp only [List.cons_append, mergePairs]
      rw [ih ys (by simpa using h)]

theorem mergePairs_snoc_gt (xs ys : List Nat) (b : Nat) (h : ys.length < xs.length) :
    mergePairs xs (ys ++ [b])
      = (mergePairs xs ys).set ys.length ⟨some (xs.getD ys.length 0), some b⟩ := by
  induction xs generalizing ys with
  | nil => simp at h
  | cons a xs ih =>
    cases ys with
    | nil =>
      simp [mergePairs, mergePairs_nil_left, mergePairs_nil_right]
    | cons c ys =>
      simp only [List.cons_append, mergePairs, List.length_cons, List.getD_cons_succ]
      rw [ih ys (by simpa using h)]
      rfl

theorem getElem?_eq_some_getD (l : List Nat) (k : Nat) (h : k < l.length) :
    l[k]? = some (l.getD k 0) := by
  induction l generalizing k with
  | nil => simp at h
  | cons x xs ih =>
    cases k with
    | zero => simp
    | succ n => simpa using ih n (by simpa using h)

/- the first construction loop: each original layer is appended to its
   type's bucket, in file order -/
theorem foldO_spec (o : HSt) (L : List Nat) (f0 : Nat → List Index) (t : Nat) :
    (L.foldl (fun f i => fun u => if u == ltypeAt o i then f u ++ [⟨some i, none⟩] else f u) f0) t
      = f0 t ++ (L.filter (fun i => ltypeAt o i == t)).map (fun i => (⟨some i, none⟩ : Index)) := by
  induction L generalizing f0 with
  | nil => simp
  | cons i L ih =>
    simp only [List.foldl_cons, List.filter_cons]
    rw [ih]
    by_cases ht : ltypeAt o i = t
    · subst ht
      simp [List.append_assoc]
    · have h1 : ((t : Nat) == ltypeAt o i) = false := beq_eq_false_iff_ne.mpr (fun he => ht he.symm)
      have h2 : (ltypeAt o i == t) = false := beq_eq_false_iff_ne.mpr ht
      simp [h1, h2]

theorem lhdrBuildO_spec (o : HSt) (t : Nat) :
    lhdrBuildO o t = mergePairs (layerIdxsOfType o t) [] := by
  rw [lhdrBuildO, foldO_spec, mergePairs_nil_right]
  simp [layerIdxsOfType]

/- the second construction loop preserves, per type, the positional merge
   of the original layers of that type with the modified layers of that
   type processed so far -/
theorem foldM_inv (m : HSt) (xs0 : Nat → List Nat) (L : List Nat) (done : Nat → List Nat)
    (st : MState)
    (hb : ∀ u, st.buckets u = mergePairs (xs0 u) (done u))
    (hc : ∀ u, st.counts u = (done u).length) (t : Nat) :
    (L.foldl (lhdrStepM m) st).buckets t
      = mergePairs (xs0 t) (done t ++ L.filter (fun i => ltypeAt m i == t))
    ∧ (L.foldl (lhdrStepM m) st).counts t
      = (done t ++ L.filter (fun i => ltypeAt m i == t)).length := by
  induction L generalizing done st with
  | nil =>
    simp only [List.foldl_nil, List.filter_nil, List.append_nil]
    exact ⟨hb t, hc t⟩
  | cons i L ih =>
    have hb2 : ∀ u, (lhdrStepM m st i).buckets u
        = mergePairs (xs0 u) (if u == ltypeAt m i then done u ++ [i] else done u) := by
      intro u
      by_cases hu : u = ltypeAt m i
      · rw [if_pos (beq_iff_eq.mpr hu), hu]
        by_cases hcase : (st.buckets (ltypeAt m i)).length < st.counts (ltypeAt m i) + 1
        · have hle : (xs0 (ltypeAt m i)).length ≤ (done (ltypeAt m i)).length := by
            rw [hb (ltypeAt m i), mergePairs_length, hc (ltypeAt m i)] at hcase
            omega
          simp only [lhdrStepM, if_pos hcase]
          rw [if_pos (show ((ltypeAt m i : Nat) == ltypeAt m i) = true by simp),
              hb (ltypeAt m i), mergePairs_snoc_le _ _ _ hle]
        · have hgt : (done (ltypeAt m i)).length < (xs0 (ltypeAt m i)).length := by
            rw [hb (ltypeAt m i), mergePairs_length, hc (ltypeAt m i)] at hcase
            omega
          simp only [lhdrStepM, if_neg hcase]
          rw [if_pos (show ((ltypeAt m i : Nat) == ltypeAt m i) = true by simp),
              hb (ltypeAt m i), hc (ltypeAt m i),
              mergePairs_snoc_gt _ _ _ hgt,
              mergePairs_getD _ _ _ (lt_sup_iff.mpr (Or.inl hgt)),
              getElem?_eq_some_getD _ _ hgt]
      · have hne : (u == ltypeAt m i) = false := beq_eq_false_iff_ne.mpr hu
        rw [if_neg (by simp [hne])]
        by_cases hcase : (st.buckets (ltypeAt m i)).length < st.counts (ltypeAt m i) + 1
        · simp only [lhdrStepM, if_pos hcase]
          rw [if_neg (by simp [hne]), hb u]
        · simp only [lhdrStepM, if_neg hcase]
          rw [if_neg (by simp [hne]), hb u]
    have hc2 : ∀ u, (lhdrStepM m st i).counts u
        = (if u == ltypeAt m i then done u ++ [i] else done u).length := by
      intro u
      by_cases hu : u = ltypeAt m i
      · rw [hu]
        simp only [lhdrStepM]
        rw [if_pos (show ((ltypeAt m i : Nat) == ltypeAt m i) = true by simp),
            if_pos (show ((ltypeAt m i : Nat) == ltypeAt m i) = true by simp),
            hc (ltypeAt m i)]
        simp
      · have hne : (u == ltypeAt m i) = false := beq_eq_false_iff_ne.mpr hu
        simp only [lhdrStepM]
        rw [if_neg (by simp [hne]), if_neg (by simp [hne]), hc u]
    have hmain := ih (fun u => if u == ltypeAt m i then done u ++ [i] else done u)
        (lhdrStepM m st i) hb2 hc2
    simp only [List.foldl_cons]
    have hlist : (if ((t : Nat) == ltypeAt m i) = true then done t ++ [i] else done t)
        ++ L.filter (fun j => ltypeAt m j == t)
        = done t ++ List.filter (fun j => ltypeAt m j == t) (i :: L) := by
      rw [List.filter_cons]
      by_cases ht : t = ltypeAt m i
      · rw [ht]
        rw [if_pos (show ((ltypeAt m i : Nat) == ltypeAt m i) = true by simp),
            if_pos (show ((ltypeAt m i : Nat) == ltypeAt m i) = true by simp)]
        simp
      · rw [if_neg (by simp [beq_eq_false_iff_ne.mpr ht]),
            if_neg (by simp [beq_eq_false_iff_ne.mpr (fun he => ht he.symm)])]
    constructor
    · rw [hmain.1]
      rw [show ((fun u => if u == ltypeAt m i then done u ++ [i] else done u) t)
          = (if ((t : Nat) == ltypeAt m i) = true then done t ++ [i] else done t) from rfl]
      rw [hlist]
    · rw [hmain.2]
      rw [show ((fun u => if u == ltypeAt m i then done u ++ [i] else done u) t)
          = (if ((t : Nat) == ltypeAt m i) = true then done t ++ [i] else done t) from rfl]
      rw [hlist]

/- the layer-table characterization: the bucket of type t pairs the k-th
   original layer of type t with the k-th modified layer of type t -/
theorem lhdrBuild_eq (o m : HSt) (t : Nat) :
    lhdrBuild o m t = mergePairs (layerIdxsOfType o t) (layerIdxsOfType m t) := by
  have h := foldM_inv m (fun u => layerIdxsOfType o u) (List.range m.pcnt.layerCount)
      (fun _ => []) ⟨lhdrBuildO o, fun _ => 0⟩
      (fun u => lhdrBuildO_spec o u)
      (fun u => rfl) t
  rw [lhdrBuild]
  rw [h.1]
  simp [layerIdxsOfType]

/- ----------------------------------------------------------------- -/
/- Contribution sums                                                 -/
/- ----------------------------------------------------------------- -/

theorem csum_map_zero {α : Type} (f : α → Contrib) (l : List α) (h : ∀ x ∈ l, f x = {}) :
    csum (l.map f) = ({} : Contrib) := by
  induction l with
  | nil => rfl
  | cons x xs ih =>
    rw [List.map_cons, csum, h x (by simp), ih (fun a ha => h a (by simp [ha]))]
    rfl

theorem mem_csum_adds (l : List Contrib) (r : DRec) :
    r ∈ (csum l).adds ↔ ∃ c ∈ l, r ∈ c.adds := by
  induction l with
  | nil => simp [csum]
  | cons c cs ih =>
    simp only [csum, Contrib.merge, List.mem_append, ih, List.mem_cons]
    constructor
    · rintro (h | ⟨c2, hc, hr⟩)
      · exact ⟨c, Or.inl rfl, h⟩
      · exact ⟨c2, Or.inr hc, hr⟩
    · rintro ⟨c2, hc | hc, hr⟩
      · subst hc; exact Or.inl hr
      · exact Or.inr ⟨c2, hc, hr⟩

theorem mem_csum_dels (l : List Contrib) (r : DRec) :
    r ∈ (csum l).dels ↔ ∃ c ∈ l, r ∈ c.dels := by
  induction l with
  | nil => simp [csum]
  | cons c cs ih =>
    simp only [csum, Contrib.merge, List.mem_append, ih, List.mem_cons]
    constructor
    · rintro (h | ⟨c2, hc, hr⟩)
      · exact ⟨c, Or.inl rfl, h⟩
      · exact ⟨c2, Or.inr hc, hr⟩
    · rintro ⟨c2, hc | hc, hr⟩
      · subst hc; exact Or.inl hr
      · exact Or.inr ⟨c2, hc, hr⟩

theorem mem_csum_mods (l : List Contrib) (r : DRec) :
    r ∈ (csum l).mods ↔ ∃ c ∈ l, r ∈ c.mods := by
  induction l with
  | nil => simp [csum]
  | cons c cs ih =>
    simp only [csum, Contrib.merge, List.mem_append, ih, List.mem_cons]
    constructor
    · rintro (h | ⟨c2, hc, hr⟩)
      · exact ⟨c, Or.inl rfl, h⟩
      · exact ⟨c2, Or.inr hc, hr⟩
    · rintro ⟨c2, hc | hc, hr⟩
      · subst hc; exact Or.inl hr
      · exact Or.inr ⟨c2, hc, hr⟩

/- ----------------------------------------------------------------- -/
/- Self-diff lemmas                                                  -/
/- ----------------------------------------------------------------- -/

theorem pverDiffsF_self (a : HSt) : pverDiffsF a a = [] := by
  simp [pverDiffsF, modIf]

theorem pflgDiffsF_self (a : HSt) : pflgDiffsF a a = [] := by
  simp [pflgDiffsF, modIf]

theorem pcntDiffsF_self (a : HSt) : pcntDiffsF a a = [] := by
  simp [pcntDiffsF, modIf]

theorem pcrtDiffsF_self (a : HSt) : pcrtDiffsF a a = [] := by
  simp [pcrtDiffsF, modIf]

theorem pmodDiffsF_self (a : HSt) : pmodDiffsF a a = [] := by
  simp [pmodDiffsF, modIf]

theorem ainfDiffsF_self (a : HSt) : ainfDiffsF a a = [] := by
  simp [ainfDiffsF, modIf]

theorem platDiffsF_self (a : HSt) : platDiffsF a a = [] := by
  unfold platDiffsF
  by_cases hex : a.plat.ex = true
  · rw [if_pos (by simp [hex]), if_neg (by simp)]
    rw [Nat.max_self]
    rw [bne_self_eq_false]
    simp only [modIf, Bool.false_eq_true, if_false, List.nil_append]
    apply catMap_nil
    intro i hi
    have hlt : i < a.plat.stringCount := List.mem_range.1 hi
    rw [if_neg (by omega), if_neg (by omega), bne_self_eq_false]
    simp [modIf]
  · rw [if_neg (by simp [hex])]

theorem dataChangedF_self (opts : Options) (a : HSt) (x : AhdrP) (d : AdbgP) :
    dataChangedF opts a a x x d d = false := by
  unfold dataChangedF
  by_cases hig : opts.ignoreDataIfChksumMatch = true
  · rw [if_pos hig]
    exact bne_self_eq_false _
  · rw [if_neg hig, if_pos (by simp)]
    exact bne_self_eq_false _

theorem assetPairDiff_self (opts : Options) (a : HSt) (aid i : Nat) :
    assetPairDiff opts a a aid i i = ([], 0) := by
  simp only [assetPairDiff]
  rw [dataChangedF_self]
  by_cases hd : opts.detailedAssets = true
  · rw [if_pos hd]
    have hh : ahdrModLines opts aid (assetAt a i) (assetAt a i) false
        = [⟨.modification, .assetRec aid⟩] := by
      simp [ahdrModLines, modIf]
    have hd2 : adbgModLines aid (adbgAt a i) (adbgAt a i)
        = [⟨.modification, .assetField aid "ADBG"⟩] := by
      simp [adbgModLines, modIf]
    rw [hh, hd2]
    simp
  · rw [if_neg hd, if_neg (by simp)]

theorem assetEvent_self (opts : Options) (a : HSt) (aid : Nat) (hmem : aid ∈ assetKeys a a) :
    assetEvent opts a a aid = ({} : Contrib) := by
  obtain ⟨i, hi⟩ : ∃ i, assetIdxOf a aid = some i := by
    rcases h : assetIdxOf a aid with _ | i
    · have hni := (assetIdxOf_none_iff a aid).1 h
      rw [mem_assetKeys] at hmem
      rcases hmem with hm | hm <;> exact absurd hm hni
    · exact ⟨i, rfl⟩
  unfold assetEvent
  simp only [assetIndexF, hi]
  rw [assetPairDiff_self]

theorem memberLine_self (a : HSt) (i : Nat) (aid : Nat) : memberLine a a i i aid = [] := by
  unfold memberLine
  simp only [memberIndexF]
  cases hb : (lastLayerIdx? a aid == some i) with
  | true =>
    rw [beq_iff_eq] at hb
    simp [hb]
  | false =>
    rw [beq_eq_false_iff_ne] at hb
    simp [hb]

theorem layerPairDiff_self (a : HSt) (i : Nat) : layerPairDiff a a i i = ([], (0, 0, 0)) := by
  unfold layerPairDiff
  rw [catMap_nil _ _ (fun aid _ => memberLine_self a i aid)]
  simp [modIf]

theorem layerEvent_self (a : HSt) (pr : Index) (hpr : pr ∈ layerPairList a a) :
    layerEvent a a pr = ({} : Contrib) := by
  obtain ⟨t, _, hpr2⟩ := (mem_catMap _ _ _).1 hpr
  rw [lhdrBuild_eq, mergePairs_self] at hpr2
  obtain ⟨i, _, rfl⟩ := List.mem_map.1 hpr2
  unfold layerEvent
  simp only [layerPairDiff_self]

def emptyRep : Report :=
  ⟨[], [], [], [], [], [], [], [], [], [], [], [], [], 0, 0, 0, 0, 0, 0, 0, 0, 0⟩

/-- C8: diffing an archive against an identical copy of itself, under every
combination of the five options, produces the empty report: every bucket is
empty and all counters (the three global ones and the per-section totals)
are zero. -/
theorem c8_self_diff (opts : Options) (a : HSt) : hipdiff opts a a = emptyRep := by
  have hac : assetPass opts a a = ({} : Contrib) :=
    csum_map_zero _ _ (fun aid ha => assetEvent_self opts a aid ha)
  have hlc : layerPass a a = ({} : Contrib) :=
    csum_map_zero _ _ (fun pr hpr => layerEvent_self a pr hpr)
  cases hopt : opts.assetDiffsOnly with
  | true => simp [hipdiff, hopt, hac, emptyRep, countTy]
  | false =>
    simp [hipdiff, hopt, hac, hlc, pverDiffsF_self, pflgDiffsF_self, pcntDiffsF_self,
      pcrtDiffsF_self, pmodDiffsF_self, platDiffsF_self, ainfDiffsF_self, emptyRep, countTy]

/- ----------------------------------------------------------------- -/
/- Concrete archives for the diff claims                             -/
/- ----------------------------------------------------------------- -/

/- the spec scenario: archive A has assets {1:"foo", 2:"bar"}, archive B
   has assets {2:"bar" unchanged, 3:"baz"} (names as byte strings) -/
def archA : HSt :=
  { pcnt := { assetCount := 2 },
    ahdr := [⟨1, 0, 0, 0, 0, 0, 0⟩, ⟨2, 0, 0, 0, 0, 0, 0⟩],
    adbg := [{ name := [102, 111, 111] }, { name := [98, 97, 114] }] }

def archB : HSt :=
  { pcnt := { assetCount := 2 },
    ahdr := [⟨2, 0, 0, 0, 0, 0, 0⟩, ⟨3, 0, 0, 0, 0, 0, 0⟩],
    adbg := [{ name := [98, 97, 114] }, { name := [98, 97, 122] }] }

/- a pair differing only in one layer's membership: asset 1 exists
   unchanged in both archives, but only archD's type-5 layer contains it -/
def archC : HSt :=
  { pcnt := { assetCount := 1, layerCount := 1 },
    ahdr := [⟨1, 0, 0, 0, 0, 0, 0⟩], adbg := [{}],
    lhdr := [⟨5, 0, []⟩], ldbg := [0] }

def archD : HSt :=
  { pcnt := { assetCount := 1, layerCount := 1 },
    ahdr := [⟨1, 0, 0, 0, 0, 0, 0⟩], adbg := [{}],
    lhdr := [⟨5, 1, [1]⟩], ldbg := [0] }

/- ----------------------------------------------------------------- -/
/- Claims C9, C10, C4, C3                                            -/
/- ----------------------------------------------------------------- -/

/-- C9: the identity matcher.  (a) The asset index has exactly one entry per
asset id present in either archive (its sorted key list covers exactly the
union of the two id sets, without duplicates), and absence on one side is
an explicitly missing index (none), equivalent to the id's absence from
that archive.  (b) The layer table of each type code pairs the k-th
original layer of that type with the k-th modified layer of that type in
file order, surplus entries keeping the other side absent.  (c) A pair
with an absent side is processed as a pure addition or deletion: it never
contributes a layer modification. -/
theorem c9_matcher (o m : HSt) :
    ((assetKeys o m).Nodup
      ∧ (∀ aid, aid ∈ assetKeys o m ↔ aid ∈ aids o ∨ aid ∈ aids m)
      ∧ (∀ aid, ((assetIndexF o m aid).oidx = none ↔ aid ∉ aids o)
              ∧ ((assetIndexF o m aid).midx = none ↔ aid ∉ aids m)))
    ∧ (∀ t, lhdrBuild o m t = mergePairs (layerIdxsOfType o t) (layerIdxsOfType m t)
        ∧ ∀ k, k < max (layerIdxsOfType o t).length (layerIdxsOfType m t).length →
            (lhdrBuild o m t).getD k idx0
              = ⟨(layerIdxsOfType o t)[k]?, (layerIdxsOfType m t)[k]?⟩)
    ∧ (∀ pr : Index,
        (pr.oidx = none → (layerEvent o m pr).nMod = 0 ∧ (layerEvent o m pr).mods = [])
        ∧ (pr.midx = none → (layerEvent o m pr).nMod = 0 ∧ (layerEvent o m pr).mods = [])) := by
  refine ⟨⟨nodup_assetKeys o m, fun aid => mem_assetKeys o m aid,
      fun aid => ⟨assetIdxOf_none_iff o aid, assetIdxOf_none_iff m aid⟩⟩,
    fun t => ⟨lhdrBuild_eq o m t, fun k hk => by
      rw [lhdrBuild_eq]
      exact mergePairs_getD _ _ _ hk⟩,
    fun pr => ⟨?_, ?_⟩⟩
  · intro hn
    rcases pr with ⟨po, pm⟩
    simp only at hn
    subst hn
    cases pm with
    | none => exact ⟨rfl, rfl⟩
    | some mi => exact ⟨rfl, rfl⟩
  · intro hn
    rcases pr with ⟨po, pm⟩
    simp only at hn
    subst hn
    cases po with
    | none => exact ⟨rfl, rfl⟩
    | some oi => exact ⟨rfl, rfl⟩

/-- C9 witness: the matcher characterization instantiated on the concrete
pair archC/archD (one type-5 layer on each side, paired positionally). -/
theorem c9_matcher_witness :
    (assetKeys archC archD).Nodup
    ∧ lhdrBuild archC archD 5 = mergePairs (layerIdxsOfType archC 5) (layerIdxsOfType archD 5)
    ∧ (lhdrBuild archC archD 5).getD 0 idx0
        = ⟨(layerIdxsOfType archC 5)[0]?, (layerIdxsOfType archD 5)[0]?⟩
    ∧ (layerEvent archC archD ⟨none, some 0⟩).nMod = 0 :=
  ⟨(c9_matcher archC archD).1.1,
   ((c9_matcher archC archD).2.1 5).1,
   ((c9_matcher archC archD).2.1 5).2 0 (by decide),
   (((c9_matcher archC archD).2.2 ⟨none, some 0⟩).1 rfl).1⟩

/-- C10: hackPCRTString reads str[strlen(str) - 1], which is out of the
buffer's bounds exactly when the creation string is empty (the index
underflows); on a non-empty string it is safe and strips one trailing
newline.  So the unconditional application in main is total only if every
loaded archive's creation string is non-empty. -/
theorem c10_hack (str : List Nat) :
    (hackPCRTString str = none ↔ str = [])
    ∧ (str ≠ [] →
        hackPCRTString str
          = some (if str.getLast? == some 10 then str.dropLast else str)) := by
  unfold hackPCRTString
  cases str with
  | nil => simp
  | cons c rest =>
    constructor
    · simp only [List.length_cons]
      constructor
      · intro h
        by_cases hl : ((c :: rest).getLast? == some 10) = true
        · rw [if_neg (by omega), if_pos hl] at h
          exact absurd h (by simp)
        · rw [if_neg (by omega), if_neg hl] at h
          exact absurd h (by simp)
      · intro h
        exact absurd h (by simp)
    · intro _
      rw [if_neg (by simp)]
      by_cases hl : ((c :: rest).getLast? == some 10) = true
      · rw [if_pos hl, if_pos hl]
      · rw [if_neg hl, if_neg hl]

/-- C10 witness: a creation string ending in a newline is non-empty, and
the stripper removes exactly the newline. -/
theorem c10_hack_witness :
    ([97, 10] : List Nat) ≠ [] ∧ hackPCRTString [97, 10] = some [97] := by
  refine ⟨by decide, ?_⟩
  have h := (c10_hack [97, 10]).2 (by decide)
  rw [h]
  decide

/-- C4 counterexample: on archC/archD the only logical record-level events
are one modified layer (a membership change), yet additionCount is 1: the
membership join line bumped the additions counter although there is no
added asset, no added layer, and additions are not produced by header
fields — so the counters are not incremented once per record-level event
of the claimed kinds. -/
theorem c4_member_line_counts :
    (hipdiff {} archC archD).additionCount = 1
    ∧ (hipdiff {} archC archD).numAssetsAdded = 0
    ∧ (hipdiff {} archC archD).numLayersAdded = 0
    ∧ (hipdiff {} archC archD).assetAdditions = []
    ∧ (hipdiff {} archC archD).layerAdditions = []
    ∧ (hipdiff {} archC archD).numLayersModified = 1 := by
  decide

/- per-event counter discipline lemmas for the amended C4 -/

theorem assetPairDiff_snd_le (opts : Options) (o m : HSt) (aid oi mi : Nat) :
    (assetPairDiff opts o m aid oi mi).2 ≤ 1 := by
  simp only [assetPairDiff]
  split
  · split <;> simp
  · split <;> simp

/- every asset event bumps each global counter exactly as often as it
   counts as an event of that kind (in particular never once per detail
   line), and is at most one event -/
theorem assetEvent_counter_eq (opts : Options) (o m : HSt) (aid : Nat) :
    (assetEvent opts o m aid).addC = (assetEvent opts o m aid).nAdd
    ∧ (assetEvent opts o m aid).delC = (assetEvent opts o m aid).nDel
    ∧ (assetEvent opts o m aid).modC = (assetEvent opts o m aid).nMod
    ∧ (assetEvent opts o m aid).nAdd + (assetEvent opts o m aid).nDel
        + (assetEvent opts o m aid).nMod ≤ 1 := by
  unfold assetEvent
  rcases h1 : (assetIndexF o m aid).oidx with _ | oi
    <;> rcases h2 : (assetIndexF o m aid).midx with _ | mi
  · exact ⟨rfl, rfl, rfl, by simp⟩
  · exact ⟨rfl, rfl, rfl, by simp⟩
  · exact ⟨rfl, rfl, rfl, by simp⟩
  · refine ⟨rfl, rfl, rfl, ?_⟩
    simpa using assetPairDiff_snd_le opts o m aid oi mi

theorem layerEvent_modC_eq (o m : HSt) (pr : Index) :
    (layerEvent o m pr).modC = (layerEvent o m pr).nMod := by
  unfold layerEvent
  rcases pr with ⟨po, pm⟩
  cases po <;> cases pm <;> rfl

theorem layerEvent_le_one (o m : HSt) (pr : Index) :
    (layerEvent o m pr).nAdd + (layerEvent o m pr).nDel + (layerEvent o m pr).nMod ≤ 1 := by
  unfold layerEvent
  rcases pr with ⟨po, pm⟩
  cases po with
  | none =>
    cases pm with
    | none => simp
    | some mi => simp
  | some oi =>
    cases pm with
    | none => simp
    | some mi =>
      have hle : (layerPairDiff o m oi mi).2.2.2 ≤ 1 := by
        simp only [layerPairDiff]
        split <;> simp
      simpa using hle

/- a wholesale-added layer bumps the additions counter exactly once and
   contributes no modification, no matter how many member lines it
   renders; dually for a wholesale-deleted layer -/
theorem layerEvent_added (o m : HSt) (pr : Index) (h1 : pr.oidx = none)
    (h2 : pr.midx ≠ none) :
    (layerEvent o m pr).addC = 1 ∧ (layerEvent o m pr).nAdd = 1
    ∧ (layerEvent o m pr).modC = 0 := by
  rcases pr with ⟨po, pm⟩
  obtain rfl : po = none := h1
  cases pm with
  | none => exact absurd rfl h2
  | some mi => exact ⟨rfl, rfl, rfl⟩

theorem layerEvent_deleted (o m : HSt) (pr : Index) (h1 : pr.midx = none)
    (h2 : pr.oidx ≠ none) :
    (layerEvent o m pr).delC = 1 ∧ (layerEvent o m pr).nDel = 1
    ∧ (layerEvent o m pr).modC = 0 := by
  rcases pr with ⟨po, pm⟩
  obtain rfl : pm = none := h1
  cases po with
  | none => exact absurd rfl h2
  | some oi => exact ⟨rfl, rfl, rfl⟩

theorem csum_addC_eq {α : Type} (f : α → Contrib) (l : List α)
    (h : ∀ x ∈ l, (f x).addC = (f x).nAdd) :
    (csum (l.map f)).addC = (csum (l.map f)).nAdd := by
  induction l with
  | nil => rfl
  | cons x xs ih =>
    simp only [List.map_cons, csum, Contrib.merge]
    rw [h x (by simp), ih (fun a ha => h a (by simp [ha]))]

theorem csum_delC_eq {α : Type} (f : α → Contrib) (l : List α)
    (h : ∀ x ∈ l, (f x).delC = (f x).nDel) :
    (csum (l.map f)).delC = (csum (l.map f)).nDel := by
  induction l with
  | nil => rfl
  | cons x xs ih =>
    simp only [List.map_cons, csum, Contrib.merge]
    rw [h x (by simp), ih (fun a ha => h a (by simp [ha]))]

theorem csum_modC_eq {α : Type} (f : α → Contrib) (l : List α)
    (h : ∀ x ∈ l, (f x).modC = (f x).nMod) :
    (csum (l.map f)).modC = (csum (l.map f)).nMod := by
  induction l with
  | nil => rfl
  | cons x xs ih =>
    simp only [List.map_cons, csum, Contrib.merge]
    rw [h x (by simp), ih (fun a ha => h a (by simp [ha]))]

/-- C4 (amended): for every pair of archives and every option setting,
asset and layer record-level events count once each and detailed
multi-line renderings do not inflate the totals: the asset pass's three
counter increments equal its event counts (one per added, deleted, and
counted-modified asset), each asset key is at most one event, the layer
pass's modification increments equal its count of modified-layer events,
each layer pair is at most one event, and a wholesale-added (resp.
deleted) layer bumps the additions (resp. deletions) counter exactly once
with no modification however many member lines it renders; in the spec
scenario (archive A assets {1:"foo", 2:"bar"}, archive B assets {2:"bar"
unchanged, 3:"baz"}) this yields additionCount = 1, deletionCount = 1,
modificationCount = 0 under every option combination.  However,
platform-record lines and layer-membership join/leave lines each
increment the counters per rendered line (see the counterexample). -/
theorem c4_counts_once (opts : Options) (o m : HSt) :
    ((assetPass opts o m).addC = (assetPass opts o m).nAdd
      ∧ (assetPass opts o m).delC = (assetPass opts o m).nDel
      ∧ (assetPass opts o m).modC = (assetPass opts o m).nMod)
    ∧ (layerPass o m).modC = (layerPass o m).nMod
    ∧ (∀ aid, (assetEvent opts o m aid).nAdd + (assetEvent opts o m aid).nDel
        + (assetEvent opts o m aid).nMod ≤ 1)
    ∧ (∀ pr : Index,
        (layerEvent o m pr).nAdd + (layerEvent o m pr).nDel
          + (layerEvent o m pr).nMod ≤ 1
        ∧ (pr.oidx = none → pr.midx ≠ none →
            (layerEvent o m pr).addC = 1 ∧ (layerEvent o m pr).nAdd = 1
            ∧ (layerEvent o m pr).modC = 0)
        ∧ (pr.midx = none → pr.oidx ≠ none →
            (layerEvent o m pr).delC = 1 ∧ (layerEvent o m pr).nDel = 1
            ∧ (layerEvent o m pr).modC = 0))
    ∧ ((hipdiff opts archA archB).additionCount = 1
        ∧ (hipdiff opts archA archB).deletionCount = 1
        ∧ (hipdiff opts archA archB).modificationCount = 0
        ∧ (hipdiff opts archA archB).numAssetsAdded = 1
        ∧ (hipdiff opts archA archB).numAssetsDeleted = 1) := by
  refine ⟨⟨?_, ?_, ?_⟩, ?_,
    fun aid => (assetEvent_counter_eq opts o m aid).2.2.2,
    fun pr => ⟨layerEvent_le_one o m pr,
      fun h1 h2 => layerEvent_added o m pr h1 h2,
      fun h1 h2 => layerEvent_deleted o m pr h1 h2⟩, ?_⟩
  · exact csum_addC_eq _ _ (fun aid _ => (assetEvent_counter_eq opts o m aid).1)
  · exact csum_delC_eq _ _ (fun aid _ => (assetEvent_counter_eq opts o m aid).2.1)
  · exact csum_modC_eq _ _ (fun aid _ => (assetEvent_counter_eq opts o m aid).2.2.1)
  · exact csum_modC_eq _ _ (fun pr _ => layerEvent_modC_eq o m pr)
  · obtain ⟨b1, b2, b3, b4, b5⟩ := opts
    cases b1 <;> cases b2 <;> cases b3 <;> cases b4 <;> cases b5 <;> decide

/-- C4 witness: the per-event discipline applied concretely — with detailed
mode on, the asset pass of the spec-scenario pair still counts one
addition (equal to its one added asset), the wholesale-added layer pair
⟨none, some 0⟩ of archC/archD bumps the additions counter exactly once,
and the scenario's additionCount is 1. -/
theorem c4_counts_once_witness :
    (assetPass { detailedAssets := true } archA archB).addC
      = (assetPass { detailedAssets := true } archA archB).nAdd
    ∧ (layerEvent archC archD ⟨none, some 0⟩).addC = 1
    ∧ (hipdiff { detailedAssets := true } archA archB).additionCount = 1 :=
  ⟨(c4_counts_once { detailedAssets := true } archA archB).1.1,
   (((c4_counts_once { detailedAssets := true } archC archD).2.2.2.1
       ⟨none, some 0⟩).2.1 rfl (by simp)).1,
   (c4_counts_once { detailedAssets := true } archA archB).2.2.2.2.1⟩

/- concrete archives for the C3 witness: same asset id 9 on both sides,
   equal debug checksums, different size fields -/
def c3o : HSt :=
  { pcnt := { assetCount := 1 },
    ahdr := [⟨9, 0, 0, 4, 0, 0, 0⟩], adbg := [{ checksum := 77 }] }

def c3m : HSt :=
  { pcnt := { assetCount := 1 },
    ahdr := [⟨9, 0, 0, 8, 0, 0, 0⟩], adbg := [{ checksum := 77 }] }

/-- C3: for an asset present in both archives whose debug checksums are
equal but whose size fields differ, the diff classifies the asset as
modified (exactly one modification event, whose record line is emitted)
under every option combination — in particular with the checksum shortcut
both on and off — and the classification performs no byte comparison: the
dataChanged flag is computed independently of the payload buffers (it is
!ignoreDataIfChksumMatch: the size mismatch alone with the shortcut off,
the equal checksums alone with the shortcut on). -/
theorem c3_size_change_modifies (opts : Options) (o m : HSt) (aid oi mi : Nat)
    (ho : (assetIndexF o m aid).oidx = some oi)
    (hm : (assetIndexF o m aid).midx = some mi)
    (hsz : (assetAt o oi).size ≠ (assetAt m mi).size)
    (hck : (adbgAt o oi).checksum = (adbgAt m mi).checksum) :
    (assetEvent opts o m aid).nMod = 1
    ∧ (⟨.modification, .assetRec aid⟩ : DRec) ∈ (assetEvent opts o m aid).mods
    ∧ ∀ d1 d2 : List Nat,
        dataChangedF opts { o with dpakData := d1 } { m with dpakData := d2 }
          (assetAt o oi) (assetAt m mi) (adbgAt o oi) (adbgAt m mi)
          = !opts.ignoreDataIfChksumMatch := by
  have hdc : ∀ o2 m2 : HSt,
      dataChangedF opts o2 m2 (assetAt o oi) (assetAt m mi) (adbgAt o oi) (adbgAt m mi)
        = !opts.ignoreDataIfChksumMatch := by
    intro o2 m2
    unfold dataChangedF
    cases hig : opts.ignoreDataIfChksumMatch with
    | true => simp [hck]
    | false =>
      simp only [Bool.false_eq_true, if_false]
      rw [if_neg (by simpa using hsz)]
      simp
  have hszb : ((assetAt o oi).size != (assetAt m mi).size) = true := by
    simpa using hsz
  have hpair : (assetPairDiff opts o m aid oi mi).2 = 1
      ∧ (⟨DTy.modification, Content.assetRec aid⟩ : DRec)
          ∈ (assetPairDiff opts o m aid oi mi).1 := by
    simp only [assetPairDiff]
    rw [hdc o m]
    cases hdet : opts.detailedAssets with
    | true =>
      simp only [if_true]
      have hlen : 1 < (ahdrModLines opts aid (assetAt o oi) (assetAt m mi)
          (!opts.ignoreDataIfChksumMatch)).length := by
        unfold ahdrModLines
        have hone : (modIf ((assetAt o oi).size != (assetAt m mi).size)
            (Content.assetField aid "size")).length = 1 := by
          rw [modIf, if_pos hszb]
          rfl
        simp only [List.length_cons, List.length_append]
        omega
      rw [if_pos (by simp [hlen])]
      refine ⟨rfl, ?_⟩
      unfold ahdrModLines
      simp
    | false =>
      simp only [Bool.false_eq_true, if_false]
      rw [if_pos (by simp [hszb])]
      exact ⟨rfl, by simp⟩
  refine ⟨?_, ?_, fun d1 d2 => hdc _ _⟩
  · simp only [assetEvent, ho, hm]
    exact hpair.1
  · simp only [assetEvent, ho, hm]
    exact hpair.2

/-- C3 witness: the theorem applied to concrete single-asset archives with
equal checksums and sizes 4 versus 8, with the checksum shortcut enabled. -/
theorem c3_size_change_modifies_witness :
    (assetEvent { ignoreDataIfChksumMatch := true } c3o c3m 9).nMod = 1
    ∧ (⟨DTy.modification, Content.assetRec 9⟩ : DRec)
        ∈ (assetEvent { ignoreDataIfChksumMatch := true } c3o c3m 9).mods
    ∧ dataChangedF { ignoreDataIfChksumMatch := true } { c3o with dpakData := [1, 2] }
        { c3m with dpakData := [3] } (assetAt c3o 0) (assetAt c3m 0)
        (adbgAt c3o 0) (adbgAt c3m 0) = false := by
  have h := c3_size_change_modifies { ignoreDataIfChksumMatch := true } c3o c3m 9 0 0
      (by decide) (by decide) (by decide) (by decide)
  exact ⟨h.1, h.2.1, h.2.2 [1, 2] [3]⟩

/- ----------------------------------------------------------------- -/
/- Claim C7                                                          -/
/- ----------------------------------------------------------------- -/

theorem mem_modIf (b : Bool) (c : Content) (r : DRec) (h : r ∈ modIf b c) :
    r = ⟨.modification, c⟩ := by
  unfold modIf at h
  split at h
  · simpa using h
  · simp at h

theorem layerPairList_bounds (o m : HSt) (pr : Index) (hpr : pr ∈ layerPairList o m) :
    (∀ oi, pr.oidx = some oi → oi < o.pcnt.layerCount)
    ∧ (∀ mi, pr.midx = some mi → mi < m.pcnt.layerCount) := by
  obtain ⟨t, _, hpr2⟩ := (mem_catMap _ _ _).1 hpr
  rw [lhdrBuild_eq] at hpr2
  have hmm := mem_mergePairs _ _ _ hpr2
  constructor
  · intro oi hoi
    have h1 := hmm.1 oi hoi
    have h2 := List.mem_filter.1 h1
    exact List.mem_range.1 h2.1
  · intro mi hmi
    have h1 := hmm.2 mi hmi
    have h2 := List.mem_filter.1 h1
    exact List.mem_range.1 h2.1

theorem memberLine_cases (o m : HSt) (oi mi aid2 : Nat) (r : DRec)
    (hr : r ∈ memberLine o m oi mi aid2) :
    (r = ⟨.addition, .member aid2⟩ ∧ lastLayerIdx? m aid2 = some mi
      ∧ aid2 ∉ addedAssets o m)
    ∨ (r = ⟨.deletion, .member aid2⟩ ∧ lastLayerIdx? o aid2 = some oi
      ∧ aid2 ∉ deletedAssets o m) := by
  unfold memberLine at hr
  simp only [memberIndexF] at hr
  split at hr
  next houter =>
    split at hr
    next hne1 =>
      have hf1 : (lastLayerIdx? o aid2 == some oi) = false := by
        rw [bne] at hne1
        simpa using hne1
      have h2 : lastLayerIdx? m aid2 = some mi := by
        rcases Bool.or_eq_true_iff.1 houter with hx | hx
        · rw [hf1] at hx
          exact absurd hx (by simp)
        · exact beq_iff_eq.1 hx
      split at hr
      next hadd => simp at hr
      next hadd =>
        simp only [List.mem_singleton] at hr
        exact Or.inl ⟨hr, h2, fun hmem => hadd ((contains_iff _ _).2 hmem)⟩
    next hne1 =>
      have h1 : lastLayerIdx? o aid2 = some oi := by
        simpa [bne] using hne1
      split at hr
      next hne2 =>
        split at hr
        next hdel => simp at hr
        next hdel =>
          simp only [List.mem_singleton] at hr
          exact Or.inr ⟨hr, h1, fun hmem => hdel ((contains_iff _ _).2 hmem)⟩
      next hne2 => simp at hr
  next houter => simp at hr

theorem layerAddLines_member (o m : HSt) (mi aid2 : Nat) (r : DRec)
    (hr : r ∈ layerAddLines o m mi) (hcon : r.content = Content.member aid2) :
    aid2 ∈ layerMembers (lhdrAt m mi) ∧ aid2 ∉ addedAssets o m := by
  unfold layerAddLines at hr
  simp only [List.mem_cons, List.mem_append] at hr
  rcases hr with rfl | rfl | (hr | hr)
  · simp at hcon
  · simp at hcon
  · obtain ⟨aid3, hmem3, hr3⟩ := (mem_catMap _ _ _).1 hr
    unfold addMemberLine at hr3
    by_cases h3 : (addedAssets o m).contains aid3 = true
    · rw [if_pos h3] at hr3
      simp at hr3
    · rw [if_neg h3] at hr3
      simp only [List.mem_singleton] at hr3
      subst hr3
      have heq : aid3 = aid2 := by simpa using hcon
      rw [heq] at hmem3 h3
      exact ⟨hmem3, fun hmem => h3 ((contains_iff _ _).2 hmem)⟩
  · rcases hr with rfl | hr
    · simp at hcon
    · rcases hr with rfl | hr
      · simp at hcon
      · simp at hr

theorem layerDelLines_member (o m : HSt) (oi aid2 : Nat) (r : DRec)
    (hr : r ∈ layerDelLines o m oi) (hcon : r.content = Content.member aid2) :
    aid2 ∈ layerMembers (lhdrAt o oi) ∧ aid2 ∉ deletedAssets o m := by
  unfold layerDelLines at hr
  simp only [List.mem_cons, List.mem_append] at hr
  rcases hr with rfl | rfl | (hr | hr)
  · simp at hcon
  · simp at hcon
  · obtain ⟨aid3, hmem3, hr3⟩ := (mem_catMap _ _ _).1 hr
    unfold delMemberLine at hr3
    by_cases h3 : (deletedAssets o m).contains aid3 = true
    · rw [if_pos h3] at hr3
      simp at hr3
    · rw [if_neg h3] at hr3
      simp only [List.mem_singleton] at hr3
      subst hr3
      have heq : aid3 = aid2 := by simpa using hcon
      rw [heq] at hmem3 h3
      exact ⟨hmem3, fun hmem => h3 ((contains_iff _ _).2 hmem)⟩
  · rcases hr with rfl | hr
    · simp at hcon
    · rcases hr with rfl | hr
      · simp at hcon
      · simp at hr

theorem layerPairDiff_fst_sub (o m : HSt) (oi mi : Nat) (r : DRec)
    (hr : r ∈ (layerPairDiff o m oi mi).1) :
    r = ⟨.modification, .layerRec (lhdrAt o oi).type⟩
    ∨ r ∈ modIf ((lhdrAt o oi).type != (lhdrAt m mi).type)
        (.layerField (lhdrAt o oi).type "type")
    ∨ r ∈ catMap (memberLine o m oi mi) (memberKeys o m)
    ∨ r = ⟨.modification, .layerField (lhdrAt o oi).type "LDBG"⟩
    ∨ r ∈ modIf (ldbgAt o oi != ldbgAt m mi) (.layerField (lhdrAt o oi).type "ldbg") := by
  simp only [layerPairDiff] at hr
  split at hr
  · rcases List.mem_append.1 hr with hr2 | hr2
    · rcases List.mem_cons.1 hr2 with rfl | hr3
      · exact Or.inl rfl
      · rcases List.mem_append.1 hr3 with hr4 | hr4
        · exact Or.inr (Or.inl hr4)
        · exact Or.inr (Or.inr (Or.inl hr4))
    · split at hr2
      · rcases List.mem_cons.1 hr2 with rfl | hr3
        · exact Or.inr (Or.inr (Or.inr (Or.inl rfl)))
        · exact Or.inr (Or.inr (Or.inr (Or.inr hr3)))
      · simp at hr2
  · simp at hr

/-- C7: an asset id reported as a whole-record addition (present only in
the modified archive) or deletion (present only in the original archive)
never also appears as a member line in the added-layer, deleted-layer, or
modified-layer buckets, provided both archives are well-formed in that
every layer's member ids are ids of assets of the same archive. -/
theorem c7_no_double_report (opts : Options) (o m : HSt) (aid : Nat)
    (hwo : layersWFb o = true) (hwm : layersWFb m = true)
    (hside : (assetIndexF o m aid).oidx = none ∨ (assetIndexF o m aid).midx = none) :
    ∀ r : DRec,
      (r ∈ (hipdiff opts o m).layerAdditions ∨ r ∈ (hipdiff opts o m).layerDeletions
        ∨ r ∈ (hipdiff opts o m).layerModifications) →
      r.content ≠ Content.member aid := by
  intro r hr hcon
  have hkey_m : aid ∈ aids m → aid ∈ addedAssets o m := by
    intro hin
    rcases hside with hn | hn
    · exact (mem_addedAssets o m aid).2 ⟨hin, hn⟩
    · exact absurd hin ((assetIdxOf_none_iff m aid).1 hn)
  have hkey_o : aid ∈ aids o → aid ∈ deletedAssets o m := by
    intro hin
    rcases hside with hn | hn
    · exact absurd hin ((assetIdxOf_none_iff o aid).1 hn)
    · exact (mem_deletedAssets o m aid).2 ⟨hin, hn⟩
  cases hopt : opts.assetDiffsOnly with
  | true => simp [hipdiff, hopt] at hr
  | false =>
    have hbA : (hipdiff opts o m).layerAdditions = (layerPass o m).adds := by
      simp [hipdiff, hopt]
    have hbD : (hipdiff opts o m).layerDeletions = (layerPass o m).dels := by
      simp [hipdiff, hopt]
    have hbM : (hipdiff opts o m).layerModifications = (layerPass o m).mods := by
      simp [hipdiff, hopt]
    rw [hbA, hbD, hbM, layerPass] at hr
    rcases hr with hr | hr | hr
    · obtain ⟨c, hc, hrc⟩ := (mem_csum_adds _ _).1 hr
      obtain ⟨pr, hpr, rfl⟩ := List.mem_map.1 hc
      rcases pr with ⟨po, pm⟩
      cases po with
      | some oi =>
        cases pm with
        | some mi => simp [layerEvent] at hrc
        | none => simp [layerEvent] at hrc
      | none =>
        cases pm with
        | none => simp [layerEvent] at hrc
        | some mi =>
          have hrc2 : r ∈ layerAddLines o m mi := by simpa [layerEvent] using hrc
          obtain ⟨hmem, hnadd⟩ := layerAddLines_member o m mi aid r hrc2 hcon
          have hmi_lt : mi < m.pcnt.layerCount :=
            (layerPairList_bounds o m ⟨none, some mi⟩ hpr).2 mi rfl
          exact hnadd (hkey_m (layersWF_mem m hwm mi hmi_lt aid hmem))
    · obtain ⟨c, hc, hrc⟩ := (mem_csum_dels _ _).1 hr
      obtain ⟨pr, hpr, rfl⟩ := List.mem_map.1 hc
      rcases pr with ⟨po, pm⟩
      cases po with
      | none =>
        cases pm with
        | some mi => simp [layerEvent] at hrc
        | none => simp [layerEvent] at hrc
      | some oi =>
        cases pm with
        | some mi => simp [layerEvent] at hrc
        | none =>
          have hrc2 : r ∈ layerDelLines o m oi := by simpa [layerEvent] using hrc
          obtain ⟨hmem, hndel⟩ := layerDelLines_member o m oi aid r hrc2 hcon
          have hoi_lt : oi < o.pcnt.layerCount :=
            (layerPairList_bounds o m ⟨some oi, none⟩ hpr).1 oi rfl
          exact hndel (hkey_o (layersWF_mem o hwo oi hoi_lt aid hmem))
    · obtain ⟨c, hc, hrc⟩ := (mem_csum_mods _ _).1 hr
      obtain ⟨pr, hpr, rfl⟩ := List.mem_map.1 hc
      rcases pr with ⟨po, pm⟩
      cases po with
      | none =>
        cases pm with
        | some mi => simp [layerEvent] at hrc
        | none => simp [layerEvent] at hrc
      | some oi =>
        cases pm with
        | none => simp [layerEvent] at hrc
        | some mi =>
          have hrc2 : r ∈ (layerPairDiff o m oi mi).1 := by simpa [layerEvent] using hrc
          rcases layerPairDiff_fst_sub o m oi mi r hrc2 with rfl | hx | hx | rfl | hx
          · simp at hcon
          · rw [mem_modIf _ _ _ hx] at hcon
            simp at hcon
          · obtain ⟨aid2, _, hline⟩ := (mem_catMap _ _ _).1 hx
            rcases memberLine_cases o m oi mi aid2 r hline with ⟨rfl, hlast, hnadd⟩
              | ⟨rfl, hlast, hndel⟩
            · have heq : aid2 = aid := by simpa using hcon
              rw [heq] at hlast hnadd
              obtain ⟨hlt, hmem⟩ := lastLayerIdx?_some m aid mi hlast
              exact hnadd (hkey_m (layersWF_mem m hwm mi hlt aid hmem))
            · have heq : aid2 = aid := by simpa using hcon
              rw [heq] at hlast hndel
              obtain ⟨hlt, hmem⟩ := lastLayerIdx?_some o aid oi hlast
              exact hndel (hkey_o (layersWF_mem o hwo oi hlt aid hmem))
          · simp at hcon
          · rw [mem_modIf _ _ _ hx] at hcon
            simp at hcon

/- archives for the C7 witness: asset 1 deleted, asset 3 added, asset 4
   present on both sides but joining the type-5 layer in the modified
   archive (so the modified-layer bucket holds a member line for 4) -/
def oW7 : HSt :=
  { pcnt := { assetCount := 3, layerCount := 1 },
    ahdr := [⟨1, 0, 0, 0, 0, 0, 0⟩, ⟨2, 0, 0, 0, 0, 0, 0⟩, ⟨4, 0, 0, 0, 0, 0, 0⟩],
    adbg := [{}, {}, {}],
    lhdr := [⟨5, 2, [1, 2]⟩], ldbg := [0] }

def mW7 : HSt :=
  { pcnt := { assetCount := 3, layerCount := 1 },
    ahdr := [⟨2, 0, 0, 0, 0, 0, 0⟩, ⟨3, 0, 0, 0, 0, 0, 0⟩, ⟨4, 0, 0, 0, 0, 0, 0⟩],
    adbg := [{}, {}, {}],
    lhdr := [⟨5, 3, [2, 3, 4]⟩], ldbg := [0] }

/-- C7 witness: in the concrete diff of oW7/mW7 the modified-layer bucket
does contain a member line (asset 4 joined), and the theorem, applied to
the globally added asset 3, shows that line is not about asset 3. -/
theorem c7_no_double_report_witness :
    (⟨DTy.addition, Content.member 4⟩ : DRec) ∈ (hipdiff {} oW7 mW7).layerModifications
    ∧ (⟨DTy.addition, Content.member 4⟩ : DRec).content ≠ Content.member 3 :=
  ⟨by decide,
   c7_no_double_report {} oW7 mW7 3 (by decide) (by decide) (Or.inl (by decide))
     ⟨DTy.addition, Content.member 4⟩ (Or.inr (Or.inr (by decide)))⟩
